import Mathlib

/-!
# xcdf2root: conversion of XCDF files to a ROOT tree with incremental writing

A shallow embedding of `xcdf2root.cpp`; line numbers refer to that file.

* `std::string` values are `String`s, one `Char` for each `char`.  Every string
  the program handles is a C string (it comes from `argv`, or is handed to ROOT
  through `c_str()`), so it holds no embedded NUL; for such strings `c_str()`
  is the identity and `strlen` is the length.
* The XCDF library and ROOT are collaborators.  Their objects (`XCDFFile`,
  `TTree`, `TFile`) are explicit values, and every call main makes on them is
  also recorded, in program order, in a trace of `Event`s.
* The ROOT calls are taken to succeed (`TFile::Open` returns a file).
* The counter `entryCount` is a `uint64_t`: it is a `Nat` reduced modulo 2^64
  at every increment.
* Diagnostic output on `std::cout` and `std::cerr` is not modelled, except for
  the entry count of the final summary line.
-/

namespace XCDF2Root

/-! ## Constants and plain data -/

/-- The macro `MAX_TNAMED_LENGTH` (line 24). -/
def MAX_TNAMED_LENGTH : Nat := 1024

/-- The typedef `FileList` (line 26). -/
abbrev FileList := List String

/-- Modelled from the spec: the enumeration `XCDFFieldType` is declared in
`xcdf/XCDF.h`, which is not part of the sources; the spec lists its members as
unsigned integer, signed integer, floating point, in this order. -/
def XCDF_UNSIGNED_INTEGER : Int := 0

/-- Modelled from the spec: second member of `XCDFFieldType`, see
`XCDF_UNSIGNED_INTEGER`. -/
def XCDF_SIGNED_INTEGER : Int := 1

/-- Modelled from the spec: third member of `XCDFFieldType`, see
`XCDF_UNSIGNED_INTEGER`. -/
def XCDF_FLOATING_POINT : Int := 2

/-- The members of `XCDFFieldDescriptor` that main reads (lines 134-137):
`name_`, `parentName_` and the `char` tag `type_`. -/
structure XCDFFieldDescriptor where
  name_ : String
  parentName_ : String
  type_ : Int
deriving DecidableEq, Repr

/-- The value of `strlen(s.c_str())` (line 142) on a string without embedded NUL. -/
def strlen (s : String) : Nat := s.length

/-! ## GetDescription (lines 37-55) -/

/-- The call `GetDescription(name, parentName, out, type)`: the value left in `out`. -/
def GetDescription (name parentName : String) (type : Int) : String :=
  let out := if parentName ≠ "" then name ++ "[" ++ parentName ++ "]" else name
  out ++ (if type = XCDF_UNSIGNED_INTEGER then "/l"
          else if type = XCDF_SIGNED_INTEGER then "/L" else "/D")

/-! ## The XCDF library -/

/-- The content of the buffer of a field, found from `&field[0]` on: the 64-bit
data of the field in the current record (one datum for a scalar field, several
for an array field). -/
abbrev Value := List Nat

/-- One decoded record: the current value of each field, by field name. -/
abbrev Record := List (String × Value)

/-- Modelled from the spec: the XCDF library is not part of the sources. What
it finds in one readable input file: the field
descriptors in declaration order (`FieldDescriptorsBegin()` to
`FieldDescriptorsEnd()`), the names `GetName()` of the fields in the order in
which `ApplyFieldVisitor` visits them, the comments, the records. -/
structure XCDFData where
  descriptors : List XCDFFieldDescriptor
  fieldNames : List String
  comments : List String
  records : List Record
deriving DecidableEq, Repr

/-- Modelled from the spec: the input files as `XCDFFile::Open(name, "r")` sees
them, `none` for a name on which Open returns false. -/
structure World where
  xcdf : String → Option XCDFData

/-- Modelled from the spec: the address `&field[0]` (line 63) handed out by a
field of the file that iteration `file` of main's loop has opened; each open
file has its own buffers. -/
structure Addr where
  file : Nat
  field : String
deriving DecidableEq, Repr

/-- Modelled from the spec: the object `xcdfile` (line 85). `handle` is the
index of the loop iteration that opened it, `pending` the records `Read()` has
not returned yet, `current` the record the field buffers hold. -/
structure XCDFFile where
  isOpen : Bool
  handle : Nat
  descriptors : List XCDFFieldDescriptor
  fieldNames : List String
  comments : List String
  pending : List Record
  current : Option Record
deriving DecidableEq, Repr

/-- A default-constructed `XCDFFile`. -/
def XCDFFile.closedFile : XCDFFile :=
  { isOpen := false, handle := 0, descriptors := [], fieldNames := [], comments := [],
    pending := [], current := none }

/-- A successful `xcdfile.Open(theFileName, "r")` in iteration `f`. -/
def XCDFFile.Open (f : Nat) (data : XCDFData) : XCDFFile :=
  { isOpen := true, handle := f, descriptors := data.descriptors, fieldNames := data.fieldNames,
    comments := data.comments, pending := data.records, current := none }

/-- The call `xcdfile.Close()`. -/
def XCDFFile.Close (x : XCDFFile) : XCDFFile :=
  { x with isOpen := false, pending := [], current := none }

/-- Modelled from the spec: what is stored at an address. Addresses stay valid
while the file they come from is open and hold the value of the field in the
record read last; an address of a file that has been closed holds nothing
valid. -/
def XCDFFile.deref (x : XCDFFile) (a : Addr) : Option Value :=
  if x.isOpen = true ∧ a.file = x.handle then x.current.bind fun r => r.lookup a.field else none

/-! ## ROOT: TTree and TFile -/

/-- Modelled from the spec: ROOT is not part of the sources. A branch of the
tree: the name it was created under, its leaf list, and the address it reads
from (`none` is `nullptr`). -/
structure TBranch where
  name : String
  leaflist : String
  address : Option Addr
deriving DecidableEq, Repr

/-- One entry of the tree: for every branch, in order, the value `Fill` found
at the branch's address. -/
abbrev Row := List (String × Option Value)

/-- The tree `out`. -/
structure TTree where
  autoSave : Bool
  branches : List TBranch
  entries : List Row
deriving DecidableEq, Repr

/-- The tree made by `new TTree("XCDF", "XCDF")`. -/
def TTree.create : TTree := { autoSave := false, branches := [], entries := [] }

/-- The call `out->SetAutoSave()`. -/
def TTree.SetAutoSave (t : TTree) : TTree := { t with autoSave := true }

/-- Modelled from the spec: the call `out->Branch(name, address, leaflist)`
creates a new last branch. -/
def TTree.Branch (t : TTree) (name : String) (address : Option Addr) (leaflist : String) : TTree :=
  { t with branches := t.branches ++ [{ name := name, leaflist := leaflist, address := address }] }

/-- Modelled from the spec: the call `tree_->SetBranchAddress(name, address)`.
The branch of that name reads from `address` from now on; without such a
branch nothing changes. -/
def TTree.SetBranchAddress (t : TTree) (name : String) (address : Addr) : TTree :=
  { t with branches := t.branches.map fun b =>
      if b.name = name then { b with address := some address } else b }

/-- Modelled from the spec: the call `out->Fill()`. A new last entry, read
through the branch addresses from the memory `mem`. -/
def TTree.Fill (t : TTree) (mem : Addr → Option Value) : TTree :=
  { t with entries := t.entries ++ [t.branches.map fun b => (b.name, b.address.bind mem)] }

/-- The output file `outFile`: the `TNamed` objects written to it, the tree as
`out->Write()` saved it, and whether `Close()` was called. -/
structure TFile where
  path : String
  named : List String
  tree : Option TTree
  closed : Bool
deriving DecidableEq, Repr

/-- The file made by `TFile::Open(outputFile.c_str(), "RECREATE", "", 1)`. -/
def TFile.Open (path : String) : TFile :=
  { path := path, named := [], tree := none, closed := false }

/-- The statements `TNamed name(text, ""); name.Write();` with this file as current directory. -/
def TFile.WriteTNamed (fl : TFile) (text : String) : TFile :=
  { fl with named := fl.named ++ [text] }

/-! ## main (lines 79-173) -/

/-- The calls main makes on its collaborators. -/
inductive Event where
  | xcdfOpen (f : Nat) (theFileName : String) (ok : Bool)
  | tfileOpen (path : String)
  | newTree
  | setAutoSave
  | branch (name leaflist : String)
  | tnamedWrite (text : String)
  | xcdfRead (f : Nat) (ok : Bool)
  | applyFieldVisitor (f : Nat)
  | setBranchAddress (name : String) (address : Addr)
  | fill
  | xcdfClose (f : Nat)
  | treeWrite
  | tfileClose
deriving DecidableEq, Repr

/-- The variables the argument loop sets (lines 81-88). -/
structure Config where
  infileNames : FileList
  outputFile : String
  Comment : Bool
deriving DecidableEq, Repr

/-- The pointers `outFile` and `out`, which are assigned together (lines
128-129). -/
structure Dest where
  outFile : TFile
  out : TTree
deriving DecidableEq, Repr

/-- The variables of main between two statements of the file loop; `dest` is
`none` while `outFile` and `out` are `nullptr`. -/
structure MainState where
  dest : Option Dest
  entryCount : Nat
  xcdfile : XCDFFile
  trace : List Event
deriving DecidableEq, Repr

/-- The variables of main once the output file exists. -/
structure Run where
  outFile : TFile
  out : TTree
  entryCount : Nat
  xcdfile : XCDFFile
  trace : List Event
deriving DecidableEq, Repr

/-- How the process ends: its exit status, the last state, and the entry count
printed by the summary line (line 170) when that line is reached. -/
structure Outcome where
  status : Nat
  final : MainState
  reported : Option Nat
deriving DecidableEq, Repr

/-- The state after line 88. -/
def MainState.init : MainState :=
  { dest := none, entryCount := 0, xcdfile := XCDFFile.closedFile, trace := [] }

/-- Back from the loop variables to the state of main. -/
def Run.toMainState (r : Run) : MainState :=
  { dest := some { outFile := r.outFile, out := r.out }, entryCount := r.entryCount,
    xcdfile := r.xcdfile, trace := r.trace }

/-- The test `argv[i][0] != '-'` (line 95); the first char of an empty argument is its
terminating NUL. -/
def notDash (a : String) : Bool :=
  a.data.head? != some '-'

/-- The argument loop (lines 89-105) on the arguments not yet consumed.
`collecting` is true inside the inner loop of `-i` (line 95).  The result is
`none` when `-h` or `--help` is reached (line 93), else the variables set. -/
def parseArgs : Bool → List String → Config → Option Config
  | _, [], c => some c
  | collecting, arg :: rest, c =>
    if collecting = true ∧ notDash arg = true then
      parseArgs true rest { c with infileNames := c.infileNames ++ [arg] }
    else if arg = "-h" ∨ arg = "--help" then none
    else if arg = "-i" then parseArgs true rest c
    else if arg = "-o" then
      match rest with
      | [] => some c
      | value :: rest2 => parseArgs false rest2 { c with outputFile := value }
    else if arg = "--comment" then parseArgs false rest { c with Comment := true }
    else parseArgs false rest c

/-- The body of the branch loop (lines 135-137). -/
def createBranch (r : Run) (it : XCDFFieldDescriptor) : Run :=
  let description := GetDescription it.name_ it.parentName_ it.type_
  { r with out := r.out.Branch it.name_ none description,
           trace := r.trace ++ [Event.branch it.name_ description] }

/-- The body of the comment loop (lines 142-148). -/
def relayComment (r : Run) (it : String) : Run :=
  if strlen it > MAX_TNAMED_LENGTH then r
  else { r with outFile := r.outFile.WriteTNamed it, trace := r.trace ++ [Event.tnamedWrite it] }

/-- The block run when `outFile` is still `nullptr` (lines 128-152). -/
def establish (cfg : Config) (s : MainState) : Run :=
  let r0 : Run :=
    { outFile := TFile.Open cfg.outputFile, out := TTree.create.SetAutoSave,
      entryCount := s.entryCount, xcdfile := s.xcdfile,
      trace := s.trace ++ [Event.tfileOpen cfg.outputFile, Event.newTree, Event.setAutoSave] }
  let r1 := s.xcdfile.descriptors.foldl createBranch r0
  if cfg.Comment = true then s.xcdfile.comments.foldl relayComment r1 else r1

/-- The call operator of `SetBranchAddressVisitor` (lines 62-65) on one field of the
open file. -/
def SetBranchAddressVisitor (r : Run) (fieldName : String) : Run :=
  let address : Addr := { file := r.xcdfile.handle, field := fieldName }
  { r with out := r.out.SetBranchAddress fieldName address,
           trace := r.trace ++ [Event.setBranchAddress fieldName address] }

/-- The call `xcdfile.ApplyFieldVisitor(setBranchAddressVisitor)` (line 160):
the visitor is applied to every field of the open file. -/
def ApplyFieldVisitor (r : Run) : Run :=
  r.xcdfile.fieldNames.foldl SetBranchAddressVisitor
    { r with trace := r.trace ++ [Event.applyFieldVisitor r.xcdfile.handle] }

/-- The body of the read loop (lines 160-162), after `Read()` returned true
and left `record` in the field buffers. -/
def readBody (rest : List Record) (record : Record) (r : Run) : Run :=
  let r1 : Run :=
    { r with xcdfile := { r.xcdfile with pending := rest, current := some record },
             trace := r.trace ++ [Event.xcdfRead r.xcdfile.handle true] }
  let r2 := ApplyFieldVisitor r1
  let r3 : Run := { r2 with out := r2.out.Fill r2.xcdfile.deref, trace := r2.trace ++ [Event.fill] }
  { r3 with entryCount := (r3.entryCount + 1) % 2 ^ 64 }

/-- The read loop (lines 159-163). `xcdfile.Read()` returns true exactly while
records are pending and then leaves the next record in the field buffers; the
recursion is on the pending records. -/
def whileRead : List Record → Run → Run
  | [], r =>
    { r with xcdfile := { r.xcdfile with pending := [] },
             trace := r.trace ++ [Event.xcdfRead r.xcdfile.handle false] }
  | record :: rest, r => whileRead rest (readBody rest record r)

/-- Lines 127-154: the table is created when `outFile` is still `nullptr`,
and taken as it is otherwise. -/
def enter (cfg : Config) (s : MainState) : Run :=
  match s.dest with
  | none => establish cfg s
  | some d =>
    { outFile := d.outFile, out := d.out, entryCount := s.entryCount,
      xcdfile := s.xcdfile, trace := s.trace }

/-- Lines 157-164: the read loop and `xcdfile.Close()`. -/
def drain (r : Run) : MainState :=
  let r1 := whileRead r.xcdfile.pending r
  let r2 : Run :=
    { r1 with xcdfile := r1.xcdfile.Close, trace := r1.trace ++ [Event.xcdfClose r1.xcdfile.handle] }
  r2.toMainState

/-- Lines 127-164 for one input file that has just been opened. -/
def processFile (cfg : Config) (s : MainState) : MainState :=
  drain (enter cfg s)

/-- Lines 168-172. With `out` still `nullptr` the call `out->Write()` ends the
process abnormally (status 139). -/
def finish (s : MainState) : Outcome :=
  match s.dest with
  | none => { status := 139, final := s, reported := none }
  | some d =>
    let written : TFile := { d.outFile with tree := some d.out }
    let closed : TFile := { written with closed := true }
    { status := 0,
      final := { s with dest := some { outFile := closed, out := d.out },
                        trace := s.trace ++ [Event.treeWrite, Event.tfileClose] },
      reported := some s.entryCount }

/-- The state after `xcdfile.Open(theFileName, "r")` returned true in iteration
`f` (line 121). -/
def MainState.opened (s : MainState) (f : Nat) (theFileName : String) (data : XCDFData) :
    MainState :=
  { s with xcdfile := XCDFFile.Open f data,
           trace := s.trace ++ [Event.xcdfOpen f theFileName true] }

/-- The file loop (lines 117-165) from iteration `f` on, followed by lines
168-172. The index `f` is an `unsigned`; an argument list has far fewer than
2^32 entries, so it does not wrap. -/
def forLoop (world : World) (cfg : Config) : Nat → List String → MainState → Outcome
  | _, [], s => finish s
  | f, theFileName :: rest, s =>
    match world.xcdf theFileName with
    | none =>
      { status := 1,
        final := { s with trace := s.trace ++ [Event.xcdfOpen f theFileName false] },
        reported := none }
    | some data => forLoop world cfg (f + 1) rest (processFile cfg (s.opened f theFileName data))

/-- The merge loop of main (lines 117-172) for the parsed arguments. -/
def mergeLoop (world : World) (cfg : Config) : Outcome :=
  forLoop world cfg 0 cfg.infileNames MainState.init

/-- The variables of the argument loop before its first iteration (lines
81-88). -/
def Config.initial : Config := { infileNames := [], outputFile := "", Comment := false }

/-- The function `main`; `argv` includes the program name `argv[0]`. -/
def main (world : World) (argv : List String) : Outcome :=
  match parseArgs false argv.tail Config.initial with
  | none => { status := 0, final := MainState.init, reported := none }
  | some cfg =>
    if cfg.outputFile = "" then { status := 1, final := MainState.init, reported := none }
    else if cfg.infileNames = [] then { status := 1, final := MainState.init, reported := none }
    else mergeLoop world cfg

/-! ## Reading a run -/

/-- The columns of a tree: the name and the leaf list of each branch, in
creation order. -/
def TTree.columns (t : TTree) : List (String × String) :=
  t.branches.map fun b => (b.name, b.leaflist)

/-- The branch names of a tree, in creation order. -/
def TTree.branchNames (t : TTree) : List String :=
  t.branches.map fun b => b.name

/-- The rows appended to the table when the process ends. -/
def Outcome.rows (o : Outcome) : List Row :=
  match o.final.dest with
  | none => []
  | some d => d.out.entries

/-- The columns of the table when the process ends. -/
def Outcome.columns (o : Outcome) : List (String × String) :=
  match o.final.dest with
  | none => []
  | some d => d.out.columns

/-- The metadata records written to the output file when the process ends. -/
def Outcome.metadata (o : Outcome) : List String :=
  match o.final.dest with
  | none => []
  | some d => d.outFile.named

/-- The table is finalized: the tree was written to the output file with all
its rows and the file was closed. -/
def Outcome.finalized (o : Outcome) : Bool :=
  match o.final.dest with
  | none => false
  | some d => d.outFile.closed && decide (d.outFile.tree = some d.out)

/-- The names under which the descriptors of an input file create columns, in
declaration order. -/
def XCDFData.columnNames (data : XCDFData) : List String :=
  data.descriptors.map fun d => d.name_

/-- The row a record gives in a table with columns `cols` when it is read from
a file with fields `fields`: a column the file has a field for holds the
record's value of that field, any other column holds nothing valid. -/
def rowOf (cols fields : List String) (r : Record) : Row :=
  cols.map fun n => (n, if n ∈ fields then r.lookup n else none)

/-- The input files up to the first one that fails to open. -/
def openedFiles (world : World) : List String → List XCDFData
  | [] => []
  | theFileName :: rest =>
    match world.xcdf theFileName with
    | none => []
    | some data => data :: openedFiles world rest

/-- The rows the records of the files give, in file order and then in record
order, in a table whose columns come from the first file. -/
def tableRows : List XCDFData → List Row
  | [] => []
  | first :: rest =>
    (first :: rest).flatMap fun data => data.records.map (rowOf first.columnNames data.fieldNames)

/-- The sum of the record counts of the files. -/
def totalRecords (files : List XCDFData) : Nat :=
  (files.map fun data => data.records.length).sum

/-- The columns the descriptors of a file give: for each descriptor the branch
name and the leaf list passed to `Branch` (line 137). -/
def columnsOf (ds : List XCDFFieldDescriptor) : List (String × String) :=
  ds.map fun it => (it.name_, GetDescription it.name_ it.parentName_ it.type_)

/-- The comments the comment loop writes (lines 141-149). -/
def relayed (cfg : Config) (comments : List String) : List String :=
  if cfg.Comment = true then comments.filter fun c => decide (c.length ≤ 1024) else []

/-- The calls of one pass of the read loop body for a file with the given
fields, opened in iteration `f`. -/
def recordEvents (f : Nat) (fields : List String) : List Event :=
  [Event.xcdfRead f true, Event.applyFieldVisitor f]
    ++ fields.map (fun n => Event.setBranchAddress n { file := f, field := n })
    ++ [Event.fill]

/-- The calls from the first `Read()` on a file to its `Close()`. -/
def drainEvents (f : Nat) (data : XCDFData) : List Event :=
  (data.records.flatMap fun _ => recordEvents f data.fieldNames)
    ++ [Event.xcdfRead f false, Event.xcdfClose f]

/-- The calls of the block that creates the table (lines 128-152). -/
def schemaEvents (cfg : Config) (data : XCDFData) : List Event :=
  [Event.tfileOpen cfg.outputFile, Event.newTree, Event.setAutoSave]
    ++ data.descriptors.map (fun it =>
        Event.branch it.name_ (GetDescription it.name_ it.parentName_ it.type_))
    ++ (relayed cfg data.comments).map Event.tnamedWrite

/-- The calls of the file loop from iteration `f` on; `established` tells
whether the table exists already. -/
def loopEvents (world : World) (cfg : Config) : Nat → List String → Bool → List Event
  | _, [], established => if established = true then [Event.treeWrite, Event.tfileClose] else []
  | f, theFileName :: rest, established =>
    match world.xcdf theFileName with
    | none => [Event.xcdfOpen f theFileName false]
    | some data =>
      [Event.xcdfOpen f theFileName true]
        ++ (if established = true then [] else schemaEvents cfg data)
        ++ drainEvents f data
        ++ loopEvents world cfg (f + 1) rest true

/-- Number of passes of the binder over the file opened in iteration `f`. -/
def bindPasses (f : Nat) (trace : List Event) : Nat :=
  trace.count (Event.applyFieldVisitor f)

/-- What a check of the bindings remembers while it walks a trace: the file
that is open, the file the latest binder pass ran against, and whether a pass
has run since the latest open. -/
structure BindMonitor where
  openFile : Option Nat
  boundFor : Option Nat
  sinceOpen : Bool
deriving DecidableEq, Repr

/-- One step of the check: `none` when a binder pass or a single bind is made
against a file that is not the open one, or when a row is appended although
the latest binder pass was made before the latest open or against another
file than the open one. -/
def BindMonitor.step (m : BindMonitor) : Event → Option BindMonitor
  | Event.xcdfOpen f _ true => some { m with openFile := some f, sinceOpen := false }
  | Event.xcdfClose _ => some { m with openFile := none }
  | Event.applyFieldVisitor f =>
    if m.openFile = some f then some { m with boundFor := some f, sinceOpen := true } else none
  | Event.setBranchAddress _ a =>
    if m.openFile = some a.file ∧ m.boundFor = some a.file then some m else none
  | Event.fill =>
    if m.openFile.isSome = true ∧ m.boundFor = m.openFile ∧ m.sinceOpen = true then some m else none
  | _ => some m

/-- The check along a whole trace. -/
def BindMonitor.run : BindMonitor → List Event → Option BindMonitor
  | m, [] => some m
  | m, e :: rest =>
    match m.step e with
    | none => none
    | some m2 => BindMonitor.run m2 rest

/-- Every row of the trace is appended under a binding made after the latest
open, against the file that is open. -/
def freshBindings (trace : List Event) : Bool :=
  (BindMonitor.run { openFile := none, boundFor := none, sinceOpen := false } trace).isSome

/-- The argument loop reaches `-h` or `--help` and main returns 0 (lines
91-93). -/
def helpReached (argv : List String) : Bool :=
  (parseArgs false argv.tail Config.initial).isNone

/-- The argument list gives an output path: a `-o` followed by a value. -/
def givesOutput : List String → Bool
  | [] => false
  | arg :: rest => (decide (arg = "-o") && !rest.isEmpty) || givesOutput rest

/-- The argument list gives an input path: a `-i` followed by at least one
file name, that is an argument that does not start with a dash. -/
def givesInput : List String → Bool
  | [] => false
  | arg :: rest =>
    (decide (arg = "-i") && (match rest with
      | [] => false
      | next :: _ => notDash next)) || givesInput rest

/-- The columns of the table the files give: those of the first file. -/
def tableColumns : List XCDFData → List (String × String)
  | [] => []
  | first :: _ => columnsOf first.descriptors

/-- The metadata records the files give: the relayed comments of the first
file. -/
def tableMetadata (cfg : Config) : List XCDFData → List String
  | [] => []
  | first :: _ => relayed cfg first.comments

/-- The comment strings of the first input file; none when there is no input
file or the first one does not open. -/
def firstComments (world : World) (cfg : Config) : List String :=
  match cfg.infileNames with
  | [] => []
  | first :: _ =>
    match world.xcdf first with
    | none => []
    | some data => data.comments

/-- The column a `Branch` call creates, nothing for any other call. -/
def branchOf : Event → Option (String × String)
  | Event.branch name leaflist => some (name, leaflist)
  | _ => none

/-- The call belongs to the part of a run that ends with the open of file `k`:
an open of a file up to `k`, a read of a file before `k`, or any call other
than the final write and close. -/
def Event.before (k : Nat) : Event → Bool
  | Event.xcdfOpen g _ _ => decide (g ≤ k)
  | Event.xcdfRead g _ => decide (g < k)
  | Event.treeWrite => false
  | Event.tfileClose => false
  | _ => true

/-! ## The states in which rows are appended -/

/-- The state in which `out->Fill()` is called for `record` (line 161):
`Read()` has returned true and the binder has passed over the fields of the
open file (line 160). -/
def atFill (rest : List Record) (record : Record) (r : Run) : Run :=
  ApplyFieldVisitor
    { r with xcdfile := { r.xcdfile with pending := rest, current := some record },
             trace := r.trace ++ [Event.xcdfRead r.xcdfile.handle true] }

/-- The states in which the read loop calls `out->Fill()`, one per record, in
order. -/
def whileReadFills : List Record → Run → List Run
  | [], _ => []
  | record :: rest, r => atFill rest record r :: whileReadFills rest (readBody rest record r)

/-- The states in which the file loop calls `out->Fill()` from iteration `f`
on, in order. -/
def forLoopFills (world : World) (cfg : Config) : Nat → List String → MainState → List Run
  | _, [], _ => []
  | f, theFileName :: rest, s =>
    match world.xcdf theFileName with
    | none => []
    | some data =>
      whileReadFills (enter cfg (s.opened f theFileName data)).xcdfile.pending
          (enter cfg (s.opened f theFileName data))
        ++ forLoopFills world cfg (f + 1) rest (processFile cfg (s.opened f theFileName data))

/-- The states in which the merge loop calls `out->Fill()`, in order. -/
def fillStates (world : World) (cfg : Config) : List Run :=
  forLoopFills world cfg 0 cfg.infileNames MainState.init

/-- The rows appended to the table in a state of main. -/
def MainState.rows (s : MainState) : List Row :=
  match s.dest with
  | none => []
  | some d => d.out.entries

/-- An input file with three records of the single unsigned field `energy`. -/
def fileA : XCDFData :=
  { descriptors := [{ name_ := "energy", parentName_ := "", type_ := XCDF_UNSIGNED_INTEGER }],
    fieldNames := ["energy"],
    comments := ["run 1"],
    records := [[("energy", [10])], [("energy", [11])], [("energy", [12])]] }

/-- An input file with five records of the single unsigned field `energy`. -/
def fileB : XCDFData :=
  { descriptors := [{ name_ := "energy", parentName_ := "", type_ := XCDF_UNSIGNED_INTEGER }],
    fieldNames := ["energy"],
    comments := ["run 2"],
    records := [[("energy", [20])], [("energy", [21])], [("energy", [22])], [("energy", [23])],
                [("energy", [24])]] }

/-- An input file with two records of a counter `hit` and an array field `pe`
under it, with two hits in the first record and one in the second. -/
def fileHits : XCDFData :=
  { descriptors := [{ name_ := "hit", parentName_ := "", type_ := XCDF_UNSIGNED_INTEGER },
                    { name_ := "pe", parentName_ := "hit", type_ := XCDF_FLOATING_POINT }],
    fieldNames := ["hit", "pe"],
    comments := [],
    records := [[("hit", [2]), ("pe", [7, 8])], [("hit", [1]), ("pe", [9])]] }

/-- A world with the readable files `a.xcd`, `b.xcd` and `hits.xcd`; no other
name opens. -/
def sampleWorld : World :=
  { xcdf := fun n =>
      if n = "a.xcd" then some fileA
      else if n = "b.xcd" then some fileB
      else if n = "hits.xcd" then some fileHits
      else none }

/-- The arguments `-i a.xcd b.xcd -o out.root`, parsed. -/
def cfgAB : Config := { infileNames := ["a.xcd", "b.xcd"], outputFile := "out.root", Comment := false }

/-- The arguments `-i a.xcd missing.xcd b.xcd -o out.root --comment`, parsed. -/
def cfgMissing : Config :=
  { infileNames := ["a.xcd", "missing.xcd", "b.xcd"], outputFile := "out.root", Comment := true }

/-- The arguments `-i hits.xcd a.xcd -o out.root`, parsed: two input files with
different fields. -/
def cfgMixed : Config :=
  { infileNames := ["hits.xcd", "a.xcd"], outputFile := "out.root", Comment := false }

/-- The arguments `-i hits.xcd -o out.root`, parsed. -/
def cfgHits : Config := { infileNames := ["hits.xcd"], outputFile := "out.root", Comment := false }

/-- Every input file of the list opens. -/
def allOpen (world : World) (names : List String) : Bool :=
  names.all fun n => (world.xcdf n).isSome

/-- A branch after one pass of the binder over a file with handle `h` and
fields `fields`. -/
def rebind (h : Nat) (fields : List String) (b : TBranch) : TBranch :=
  if b.name ∈ fields then { b with address := some { file := h, field := b.name } } else b

/-- Every branch address was handed out by a file opened before iteration `n`. -/
def AddrBelow (n : Nat) (branches : List TBranch) : Prop :=
  ∀ b ∈ branches, ∀ a, b.address = some a → a.file < n

/-- Every branch address was handed out by an earlier file, or by the open file
`h` for a field the file has. -/
def Settled (h : Nat) (fields : List String) (branches : List TBranch) : Prop :=
  ∀ b ∈ branches, ∀ a, b.address = some a → a.file < h ∨ (a.file = h ∧ b.name ∈ fields)

/-! ## The loops of the schema block -/

theorem foldl_createBranch (ds : List XCDFFieldDescriptor) (r : Run) :
    ds.foldl createBranch r =
      { r with
        out := { r.out with
          branches := r.out.branches ++ ds.map fun it =>
            { name := it.name_, leaflist := GetDescription it.name_ it.parentName_ it.type_,
              address := none } },
        trace := r.trace ++ ds.map fun it =>
          Event.branch it.name_ (GetDescription it.name_ it.parentName_ it.type_) } := by
  induction ds generalizing r with
  | nil => simp
  | cons it ds ih =>
    rw [List.foldl_cons, ih]
    simp [createBranch, TTree.Branch, List.append_assoc]

theorem foldl_relayComment (cs : List String) (r : Run) :
    cs.foldl relayComment r =
      { r with
        outFile := { r.outFile with
          named := r.outFile.named ++ cs.filter fun c => decide (c.length ≤ 1024) },
        trace := r.trace ++ (cs.filter fun c => decide (c.length ≤ 1024)).map Event.tnamedWrite } := by
  induction cs generalizing r with
  | nil => simp
  | cons c cs ih =>
    rw [List.foldl_cons, ih]
    by_cases hc : c.length ≤ 1024
    · have h1 : ¬ strlen c > MAX_TNAMED_LENGTH := by
        simp only [strlen, MAX_TNAMED_LENGTH]; omega
      simp [relayComment, h1, hc, TFile.WriteTNamed, List.append_assoc]
    · have h1 : strlen c > MAX_TNAMED_LENGTH := by
        simp only [strlen, MAX_TNAMED_LENGTH]; omega
      simp [relayComment, h1, hc]

theorem establish_eq (cfg : Config) (s : MainState) :
    establish cfg s =
      { outFile := { path := cfg.outputFile, named := relayed cfg s.xcdfile.comments,
                     tree := none, closed := false },
        out := { autoSave := true, branches := s.xcdfile.descriptors.map fun it =>
                   { name := it.name_, leaflist := GetDescription it.name_ it.parentName_ it.type_,
                     address := none },
                 entries := [] },
        entryCount := s.entryCount,
        xcdfile := s.xcdfile,
        trace := s.trace ++ ([Event.tfileOpen cfg.outputFile, Event.newTree, Event.setAutoSave]
          ++ s.xcdfile.descriptors.map (fun it =>
              Event.branch it.name_ (GetDescription it.name_ it.parentName_ it.type_))
          ++ (relayed cfg s.xcdfile.comments).map Event.tnamedWrite) } := by
  unfold establish
  by_cases hc : cfg.Comment = true
  · simp [hc, foldl_createBranch, foldl_relayComment, relayed, TFile.Open, TTree.create,
      TTree.SetAutoSave, List.append_assoc]
  · simp [hc, foldl_createBranch, relayed, TFile.Open, TTree.create,
      TTree.SetAutoSave, List.append_assoc]

/-! ## The binder and the read loop -/

theorem foldl_SetBranchAddressVisitor (fields : List String) (r : Run) :
    fields.foldl SetBranchAddressVisitor r =
      { r with
        out := { r.out with branches := r.out.branches.map (rebind r.xcdfile.handle fields) },
        trace := r.trace ++ fields.map fun n =>
          Event.setBranchAddress n { file := r.xcdfile.handle, field := n } } := by
  induction fields generalizing r with
  | nil =>
    have h : r.out.branches.map (rebind r.xcdfile.handle []) = r.out.branches := by
      conv => rhs; rw [← List.map_id r.out.branches]
      apply List.map_congr_left
      intro b _
      simp [rebind]
    simp [h]
  | cons n ns ih =>
    rw [List.foldl_cons, ih]
    have h : (r.out.branches.map fun b =>
          if b.name = n then { b with address := some { file := r.xcdfile.handle, field := n } }
          else b).map (rebind r.xcdfile.handle ns)
        = r.out.branches.map (rebind r.xcdfile.handle (n :: ns)) := by
      rw [List.map_map]
      apply List.map_congr_left
      intro b _
      by_cases hb : b.name = n
      · by_cases hm : n ∈ ns
        · simp [rebind, hb, hm]
        · simp [rebind, hb, hm]
      · by_cases hm : b.name ∈ ns
        · simp [rebind, hb, hm]
        · simp [rebind, hb, hm]
    simp [SetBranchAddressVisitor, TTree.SetBranchAddress, h, List.append_assoc]

theorem rebind_name (h : Nat) (fields : List String) (b : TBranch) :
    (rebind h fields b).name = b.name := by
  unfold rebind; split <;> rfl

theorem rebind_leaflist (h : Nat) (fields : List String) (b : TBranch) :
    (rebind h fields b).leaflist = b.leaflist := by
  unfold rebind; split <;> rfl

theorem settled_rebind (h : Nat) (fields : List String) (branches : List TBranch)
    (hs : Settled h fields branches) : Settled h fields (branches.map (rebind h fields)) := by
  intro b hb a ha
  rw [List.mem_map] at hb
  obtain ⟨b0, hb0, rfl⟩ := hb
  rw [rebind_name]
  by_cases hm : b0.name ∈ fields
  · simp only [rebind, hm, if_true] at ha
    injection ha with ha
    subst ha
    exact Or.inr ⟨rfl, hm⟩
  · simp only [rebind, hm, if_false] at ha
    exact hs b0 hb0 a ha

theorem settled_of_addrBelow (h : Nat) (fields : List String) (branches : List TBranch)
    (hb : AddrBelow h branches) : Settled h fields branches :=
  fun b hmem a ha => Or.inl (hb b hmem a ha)

theorem addrBelow_of_settled (h : Nat) (fields : List String) (branches : List TBranch)
    (hs : Settled h fields branches) : AddrBelow (h + 1) branches := by
  intro b hmem a ha
  rcases hs b hmem a ha with h1 | ⟨h1, _⟩ <;> omega

/-- The row `Fill` appends after a pass of the binder. -/
theorem fill_row (x : XCDFFile) (record : Record) (branches : List TBranch)
    (hopen : x.isOpen = true) (hcur : x.current = some record)
    (hs : Settled x.handle x.fieldNames branches) :
    ((branches.map (rebind x.handle x.fieldNames)).map fun b => (b.name, b.address.bind x.deref))
      = rowOf (branches.map fun b => b.name) x.fieldNames record := by
  unfold rowOf
  rw [List.map_map, List.map_map]
  apply List.map_congr_left
  intro b hb
  by_cases hm : b.name ∈ x.fieldNames
  · simp [rebind, hm, XCDFFile.deref, hopen, hcur]
  · simp only [Function.comp, rebind, hm, if_false]
    cases ha : b.address with
    | none => simp
    | some a =>
      rcases hs b hb a ha with h1 | ⟨_, h2⟩
      · have : ¬ (x.isOpen = true ∧ a.file = x.handle) := by
          intro hc; omega
        simp [XCDFFile.deref, this]
      · exact absurd h2 hm

theorem applyFieldVisitor_eq (r : Run) :
    ApplyFieldVisitor r =
      { r with
        out := { r.out with
          branches := r.out.branches.map (rebind r.xcdfile.handle r.xcdfile.fieldNames) },
        trace := r.trace ++ ([Event.applyFieldVisitor r.xcdfile.handle]
          ++ r.xcdfile.fieldNames.map fun n =>
            Event.setBranchAddress n { file := r.xcdfile.handle, field := n }) } := by
  unfold ApplyFieldVisitor
  rw [foldl_SetBranchAddressVisitor]
  simp [List.append_assoc]

theorem readBody_outFile (rest : List Record) (record : Record) (r : Run) :
    (readBody rest record r).outFile = r.outFile := by
  simp [readBody, applyFieldVisitor_eq]

theorem readBody_branches (rest : List Record) (record : Record) (r : Run) :
    (readBody rest record r).out.branches
      = r.out.branches.map (rebind r.xcdfile.handle r.xcdfile.fieldNames) := by
  simp [readBody, applyFieldVisitor_eq, TTree.Fill]

theorem readBody_entries (rest : List Record) (record : Record) (r : Run) :
    (readBody rest record r).out.entries
      = r.out.entries ++
          [(r.out.branches.map (rebind r.xcdfile.handle r.xcdfile.fieldNames)).map fun b =>
            (b.name, b.address.bind
              (XCDFFile.deref { r.xcdfile with pending := rest, current := some record }))] := by
  simp [readBody, applyFieldVisitor_eq, TTree.Fill]

theorem readBody_entryCount (rest : List Record) (record : Record) (r : Run) :
    (readBody rest record r).entryCount = (r.entryCount + 1) % 2 ^ 64 := by
  simp [readBody, applyFieldVisitor_eq]

theorem readBody_xcdfile (rest : List Record) (record : Record) (r : Run) :
    (readBody rest record r).xcdfile = { r.xcdfile with pending := rest, current := some record } := by
  simp [readBody, applyFieldVisitor_eq]

theorem readBody_trace (rest : List Record) (record : Record) (r : Run) :
    (readBody rest record r).trace
      = r.trace ++ recordEvents r.xcdfile.handle r.xcdfile.fieldNames := by
  simp [readBody, applyFieldVisitor_eq, recordEvents, List.append_assoc]

theorem map_rebind_names (h : Nat) (fields : List String) (branches : List TBranch) :
    (branches.map (rebind h fields)).map (fun b => b.name) = branches.map fun b => b.name := by
  rw [List.map_map]
  apply List.map_congr_left
  intro b _
  exact rebind_name _ _ _

theorem map_rebind_columns (h : Nat) (fields : List String) (branches : List TBranch) :
    (branches.map (rebind h fields)).map (fun b => (b.name, b.leaflist))
      = branches.map fun b => (b.name, b.leaflist) := by
  rw [List.map_map]
  apply List.map_congr_left
  intro b _
  simp [rebind_name, rebind_leaflist]

/-- The read loop in closed form. -/
theorem whileRead_spec (records : List Record) :
    ∀ r : Run, r.xcdfile.isOpen = true →
      Settled r.xcdfile.handle r.xcdfile.fieldNames r.out.branches →
      r.entryCount < 2 ^ 64 →
      (whileRead records r).outFile = r.outFile ∧
      (whileRead records r).out.columns = r.out.columns ∧
      (whileRead records r).out.entries
        = r.out.entries ++ records.map (rowOf r.out.branchNames r.xcdfile.fieldNames) ∧
      (whileRead records r).entryCount = (r.entryCount + records.length) % 2 ^ 64 ∧
      (whileRead records r).trace
        = r.trace ++ ((records.flatMap fun _ => recordEvents r.xcdfile.handle r.xcdfile.fieldNames)
            ++ [Event.xcdfRead r.xcdfile.handle false]) ∧
      (whileRead records r).xcdfile.handle = r.xcdfile.handle ∧
      Settled r.xcdfile.handle r.xcdfile.fieldNames (whileRead records r).out.branches := by
  induction records with
  | nil =>
    intro r _ hs hec
    refine ⟨rfl, rfl, by simp [whileRead], ?_, by simp [whileRead], rfl, hs⟩
    simp only [whileRead, List.length_nil, Nat.add_zero]
    exact (Nat.mod_eq_of_lt hec).symm
  | cons record rest ih =>
    intro r hopen hs hec
    have hx := readBody_xcdfile rest record r
    have hhandle : (readBody rest record r).xcdfile.handle = r.xcdfile.handle := by rw [hx]
    have hfields : (readBody rest record r).xcdfile.fieldNames = r.xcdfile.fieldNames := by
      rw [hx]
    have hstep := ih (readBody rest record r)
      (by rw [hx]; exact hopen)
      (by rw [hhandle, hfields, readBody_branches]; exact settled_rebind _ _ _ hs)
      (by rw [readBody_entryCount]; exact Nat.mod_lt _ (by positivity))
    rw [hhandle, hfields] at hstep
    obtain ⟨h1, h2, h3, h4, h5, h6, h7⟩ := hstep
    have hrow := fill_row { r.xcdfile with pending := rest, current := some record } record
      r.out.branches hopen rfl hs
    simp only [whileRead]
    refine ⟨?_, ?_, ?_, ?_, ?_, h6, h7⟩
    · rw [h1, readBody_outFile]
    · rw [h2]
      simp only [TTree.columns, readBody_branches]
      exact map_rebind_columns _ _ _
    · rw [h3, readBody_entries]
      have hn : (readBody rest record r).out.branchNames = r.out.branchNames := by
        simp only [TTree.branchNames, readBody_branches]
        exact map_rebind_names _ _ _
      rw [hn]
      have hrow2 : ((r.out.branches.map (rebind r.xcdfile.handle r.xcdfile.fieldNames)).map fun b =>
          (b.name, b.address.bind
            (XCDFFile.deref { r.xcdfile with pending := rest, current := some record })))
          = rowOf r.out.branchNames r.xcdfile.fieldNames record := hrow
      rw [hrow2]
      simp [List.append_assoc]
    · rw [h4, readBody_entryCount]
      simp only [List.length_cons]
      rw [Nat.mod_add_mod]
      congr 1
      omega
    · rw [h5, readBody_trace]
      simp [List.append_assoc]

/-! ## One input file -/

theorem branchNames_eq_of_columns (t u : TTree) (h : t.columns = u.columns) :
    t.branchNames = u.branchNames := by
  have h2 := congrArg (List.map Prod.fst) h
  simpa [TTree.columns, TTree.branchNames, List.map_map, Function.comp] using h2

/-- The read loop and the close, in closed form. -/
theorem drain_spec (r : Run) (hopen : r.xcdfile.isOpen = true)
    (hbelow : AddrBelow r.xcdfile.handle r.out.branches) (hec : r.entryCount < 2 ^ 64) :
    ∃ d : Dest, (drain r).dest = some d ∧
      d.outFile = r.outFile ∧
      d.out.columns = r.out.columns ∧
      d.out.entries
        = r.out.entries ++ r.xcdfile.pending.map (rowOf r.out.branchNames r.xcdfile.fieldNames) ∧
      (drain r).entryCount = (r.entryCount + r.xcdfile.pending.length) % 2 ^ 64 ∧
      (drain r).trace
        = r.trace ++ ((r.xcdfile.pending.flatMap fun _ =>
              recordEvents r.xcdfile.handle r.xcdfile.fieldNames)
            ++ [Event.xcdfRead r.xcdfile.handle false, Event.xcdfClose r.xcdfile.handle]) ∧
      AddrBelow (r.xcdfile.handle + 1) d.out.branches := by
  obtain ⟨h1, h2, h3, h4, h5, h6, h7⟩ :=
    whileRead_spec r.xcdfile.pending r hopen (settled_of_addrBelow _ _ _ hbelow) hec
  refine ⟨{ outFile := (whileRead r.xcdfile.pending r).outFile,
            out := (whileRead r.xcdfile.pending r).out }, rfl, h1, h2, h3, ?_, ?_, ?_⟩
  · simpa [drain, Run.toMainState] using h4
  · simp only [drain, Run.toMainState]
    rw [h5, h6]
    simp [List.append_assoc]
  · exact addrBelow_of_settled _ _ _ h7

theorem addrBelow_fresh (n : Nat) (ds : List XCDFFieldDescriptor) :
    AddrBelow n (ds.map fun it =>
      ({ name := it.name_, leaflist := GetDescription it.name_ it.parentName_ it.type_,
         address := none } : TBranch)) := by
  intro b hb a ha
  rw [List.mem_map] at hb
  obtain ⟨it, _, rfl⟩ := hb
  simp at ha

theorem establish_outFile (cfg : Config) (s : MainState) :
    (establish cfg s).outFile = { path := cfg.outputFile, named := relayed cfg s.xcdfile.comments,
                                  tree := none, closed := false } := by
  rw [establish_eq]

theorem establish_out (cfg : Config) (s : MainState) :
    (establish cfg s).out =
      { autoSave := true,
        branches := s.xcdfile.descriptors.map fun it =>
          { name := it.name_, leaflist := GetDescription it.name_ it.parentName_ it.type_,
            address := none },
        entries := [] } := by
  rw [establish_eq]

theorem establish_entryCount (cfg : Config) (s : MainState) :
    (establish cfg s).entryCount = s.entryCount := by
  rw [establish_eq]

theorem establish_xcdfile (cfg : Config) (s : MainState) :
    (establish cfg s).xcdfile = s.xcdfile := by
  rw [establish_eq]

theorem establish_trace (cfg : Config) (s : MainState) :
    (establish cfg s).trace = s.trace ++ ([Event.tfileOpen cfg.outputFile, Event.newTree,
        Event.setAutoSave]
      ++ s.xcdfile.descriptors.map (fun it =>
          Event.branch it.name_ (GetDescription it.name_ it.parentName_ it.type_))
      ++ (relayed cfg s.xcdfile.comments).map Event.tnamedWrite) := by
  rw [establish_eq]

/-- The first input file: the table is created and the file is drained. -/
theorem processFile_first (cfg : Config) (s : MainState) (f : Nat) (data : XCDFData)
    (hdest : s.dest = none) (hx : s.xcdfile = XCDFFile.Open f data) (hec : s.entryCount < 2 ^ 64) :
    ∃ d : Dest, (processFile cfg s).dest = some d ∧
      d.outFile = { path := cfg.outputFile, named := relayed cfg data.comments,
                    tree := none, closed := false } ∧
      d.out.columns = columnsOf data.descriptors ∧
      d.out.entries = data.records.map (rowOf data.columnNames data.fieldNames) ∧
      (processFile cfg s).entryCount = (s.entryCount + data.records.length) % 2 ^ 64 ∧
      (processFile cfg s).trace
        = s.trace ++ (schemaEvents cfg data ++ drainEvents f data) ∧
      AddrBelow (f + 1) d.out.branches := by
  have hp : processFile cfg s = drain (establish cfg s) := by simp [processFile, enter, hdest]
  have e1 := establish_outFile cfg s
  have e2 := establish_out cfg s
  have e3 := establish_entryCount cfg s
  have e4 := establish_xcdfile cfg s
  have e5 := establish_trace cfg s
  rw [hx] at e1 e2 e4 e5
  obtain ⟨d, h0, h1, h2, h3, h4, h5, h6⟩ := drain_spec (establish cfg s)
    (by rw [e4]; rfl)
    (by rw [e2]; exact addrBelow_fresh _ _)
    (by rw [e3]; exact hec)
  rw [hp]
  rw [e4] at h3 h4 h5 h6
  refine ⟨d, h0, by rw [h1, e1]; rfl, ?_, ?_, ?_, ?_, h6⟩
  · rw [h2, e2]
    simp [TTree.columns, columnsOf, XCDFFile.Open]
  · rw [h3, e2]
    have hn : (TTree.mk true ((XCDFFile.Open f data).descriptors.map fun it =>
        ({ name := it.name_, leaflist := GetDescription it.name_ it.parentName_ it.type_,
           address := none } : TBranch)) []).branchNames = data.columnNames := by
      simp [TTree.branchNames, XCDFFile.Open, XCDFData.columnNames, List.map_map, Function.comp]
    rw [hn]
    simp [XCDFFile.Open]
  · rw [h4, e3]; rfl
  · rw [h5, e5]
    simp [schemaEvents, drainEvents, XCDFFile.Open, List.append_assoc]

/-- A later input file: the table is kept and the file is drained. -/
theorem processFile_later (cfg : Config) (s : MainState) (d0 : Dest) (f : Nat) (data : XCDFData)
    (hdest : s.dest = some d0) (hx : s.xcdfile = XCDFFile.Open f data)
    (hbelow : AddrBelow f d0.out.branches) (hec : s.entryCount < 2 ^ 64) :
    ∃ d : Dest, (processFile cfg s).dest = some d ∧
      d.outFile = d0.outFile ∧
      d.out.columns = d0.out.columns ∧
      d.out.entries
        = d0.out.entries ++ data.records.map (rowOf d0.out.branchNames data.fieldNames) ∧
      (processFile cfg s).entryCount = (s.entryCount + data.records.length) % 2 ^ 64 ∧
      (processFile cfg s).trace = s.trace ++ drainEvents f data ∧
      AddrBelow (f + 1) d.out.branches := by
  have hp : processFile cfg s = drain (Run.mk d0.outFile d0.out s.entryCount
      (XCDFFile.Open f data) s.trace) := by
    simp [processFile, enter, hdest, hx]
  obtain ⟨d, h0, h1, h2, h3, h4, h5, h6⟩ := drain_spec (Run.mk d0.outFile d0.out s.entryCount
      (XCDFFile.Open f data) s.trace) rfl hbelow hec
  rw [hp]
  refine ⟨d, h0, h1, h2, ?_, h4, ?_, h6⟩
  · rw [h3]; rfl
  · rw [h5]
    simp [drainEvents, XCDFFile.Open]

/-! ## The file loop -/

theorem forLoop_fail (world : World) (cfg : Config) (f : Nat) (n : String) (rest : List String)
    (s : MainState) (hw : world.xcdf n = none) :
    forLoop world cfg f (n :: rest) s
      = { status := 1,
          final := { s with trace := s.trace ++ [Event.xcdfOpen f n false] },
          reported := none } := by
  simp [forLoop, hw]

theorem forLoop_open (world : World) (cfg : Config) (f : Nat) (n : String) (rest : List String)
    (s : MainState) (data : XCDFData) (hw : world.xcdf n = some data) :
    forLoop world cfg f (n :: rest) s
      = forLoop world cfg (f + 1) rest (processFile cfg (s.opened f n data)) := by
  simp [forLoop, hw]

theorem openedFiles_fail (world : World) (n : String) (rest : List String)
    (hw : world.xcdf n = none) : openedFiles world (n :: rest) = [] := by
  simp [openedFiles, hw]

theorem openedFiles_open (world : World) (n : String) (rest : List String) (data : XCDFData)
    (hw : world.xcdf n = some data) :
    openedFiles world (n :: rest) = data :: openedFiles world rest := by
  simp [openedFiles, hw]

theorem allOpen_fail (world : World) (n : String) (rest : List String)
    (hw : world.xcdf n = none) : allOpen world (n :: rest) = false := by
  simp [allOpen, hw]

theorem allOpen_open (world : World) (n : String) (rest : List String) (data : XCDFData)
    (hw : world.xcdf n = some data) : allOpen world (n :: rest) = allOpen world rest := by
  simp [allOpen, hw]

theorem loopEvents_fail (world : World) (cfg : Config) (f : Nat) (n : String) (rest : List String)
    (e : Bool) (hw : world.xcdf n = none) :
    loopEvents world cfg f (n :: rest) e = [Event.xcdfOpen f n false] := by
  simp [loopEvents, hw]

theorem loopEvents_open (world : World) (cfg : Config) (f : Nat) (n : String) (rest : List String)
    (e : Bool) (data : XCDFData) (hw : world.xcdf n = some data) :
    loopEvents world cfg f (n :: rest) e
      = [Event.xcdfOpen f n true] ++ (if e = true then [] else schemaEvents cfg data)
          ++ drainEvents f data ++ loopEvents world cfg (f + 1) rest true := by
  simp [loopEvents, hw]

theorem totalRecords_cons (data : XCDFData) (files : List XCDFData) :
    totalRecords (data :: files) = data.records.length + totalRecords files := by
  simp [totalRecords]

/-- The file loop from a state in which the table exists, in closed form. -/
theorem forLoop_established (world : World) (cfg : Config) (names : List String) :
    ∀ (f : Nat) (s : MainState) (d : Dest), s.dest = some d → AddrBelow f d.out.branches →
      s.entryCount < 2 ^ 64 → d.outFile.closed = false →
      (forLoop world cfg f names s).rows
        = d.out.entries ++ (openedFiles world names).flatMap (fun data =>
            data.records.map (rowOf d.out.branchNames data.fieldNames)) ∧
      (forLoop world cfg f names s).columns = d.out.columns ∧
      (forLoop world cfg f names s).metadata = d.outFile.named ∧
      (forLoop world cfg f names s).final.trace = s.trace ++ loopEvents world cfg f names true ∧
      (forLoop world cfg f names s).final.entryCount
        = (s.entryCount + totalRecords (openedFiles world names)) % 2 ^ 64 ∧
      (forLoop world cfg f names s).status = (if allOpen world names = true then 0 else 1) ∧
      (forLoop world cfg f names s).finalized = allOpen world names ∧
      (forLoop world cfg f names s).reported
        = (if allOpen world names = true
            then some ((s.entryCount + totalRecords (openedFiles world names)) % 2 ^ 64)
            else none) := by
  induction names with
  | nil =>
    intro f s d hd _ hec _
    have hmod : s.entryCount % 18446744073709551616 = s.entryCount := Nat.mod_eq_of_lt hec
    simp [forLoop, finish, hd, Outcome.rows, Outcome.columns, Outcome.metadata,
      Outcome.finalized, openedFiles, loopEvents, totalRecords, allOpen, hmod]
  | cons n rest ih =>
    intro f s d hd hbelow hec hclosed
    have hmod : s.entryCount % 18446744073709551616 = s.entryCount := Nat.mod_eq_of_lt hec
    cases hw : world.xcdf n with
    | none =>
      rw [forLoop_fail world cfg f n rest s hw, openedFiles_fail world n rest hw,
        allOpen_fail world n rest hw, loopEvents_fail world cfg f n rest true hw]
      simp [Outcome.rows, Outcome.columns, Outcome.metadata, Outcome.finalized, hd,
        totalRecords, hmod, hclosed]
    | some data =>
      rw [forLoop_open world cfg f n rest s data hw, openedFiles_open world n rest data hw,
        allOpen_open world n rest data hw, loopEvents_open world cfg f n rest true data hw]
      obtain ⟨d2, h0, h1, h2, h3, h4, h5, h6⟩ := processFile_later cfg
        (s.opened f n data) d f data hd rfl hbelow hec
      have hec2 : (processFile cfg (s.opened f n data)).entryCount < 2 ^ 64 := by
        rw [h4]; exact Nat.mod_lt _ (by positivity)
      obtain ⟨i1, i2, i3, i4, i5, i6, i7, i8⟩ :=
        ih (f + 1) _ d2 h0 h6 hec2 (by rw [h1]; exact hclosed)
      have hbn : d2.out.branchNames = d.out.branchNames := branchNames_eq_of_columns _ _ h2
      have he : (s.opened f n data).entryCount = s.entryCount := rfl
      have ht : (s.opened f n data).trace = s.trace ++ [Event.xcdfOpen f n true] := rfl
      have hsum : ((s.entryCount + data.records.length) % 2 ^ 64
          + totalRecords (openedFiles world rest)) % 2 ^ 64
          = (s.entryCount + (data.records.length + totalRecords (openedFiles world rest)))
            % 2 ^ 64 := by
        rw [Nat.mod_add_mod, Nat.add_assoc]
      rw [he] at h4
      rw [ht] at h5
      refine ⟨?_, ?_, ?_, ?_, ?_, i6, i7, ?_⟩
      · rw [i1, h3, hbn]; simp [List.append_assoc]
      · rw [i2, h2]
      · rw [i3, h1]
      · rw [i4, h5]; simp [List.append_assoc]
      · rw [i5, h4, totalRecords_cons, hsum]
      · rw [i8, h4, totalRecords_cons, hsum]

theorem branchNames_of_columns (t : TTree) (ds : List XCDFFieldDescriptor)
    (h : t.columns = columnsOf ds) : t.branchNames = ds.map fun it => it.name_ := by
  have h2 := congrArg (List.map Prod.fst) h
  simpa [TTree.columns, TTree.branchNames, columnsOf, List.map_map, Function.comp] using h2

/-- The merge loop on a non-empty list of input files, in closed form. -/
theorem mergeLoop_cons (world : World) (cfg : Config) (n : String) (rest : List String)
    (hn : cfg.infileNames = n :: rest) :
    (mergeLoop world cfg).rows = tableRows (openedFiles world cfg.infileNames) ∧
    (mergeLoop world cfg).columns = tableColumns (openedFiles world cfg.infileNames) ∧
    (mergeLoop world cfg).metadata = tableMetadata cfg (openedFiles world cfg.infileNames) ∧
    (mergeLoop world cfg).final.trace = loopEvents world cfg 0 cfg.infileNames false ∧
    (mergeLoop world cfg).final.entryCount
      = totalRecords (openedFiles world cfg.infileNames) % 2 ^ 64 ∧
    (mergeLoop world cfg).status = (if allOpen world cfg.infileNames = true then 0 else 1) ∧
    (mergeLoop world cfg).finalized = allOpen world cfg.infileNames ∧
    (mergeLoop world cfg).reported
      = (if allOpen world cfg.infileNames = true
          then some (totalRecords (openedFiles world cfg.infileNames) % 2 ^ 64)
          else none) := by
  unfold mergeLoop
  rw [hn]
  cases hw : world.xcdf n with
  | none =>
    rw [forLoop_fail world cfg 0 n rest _ hw, openedFiles_fail world n rest hw,
      allOpen_fail world n rest hw, loopEvents_fail world cfg 0 n rest false hw]
    simp [Outcome.rows, Outcome.columns, Outcome.metadata, Outcome.finalized, MainState.init,
      tableRows, tableColumns, tableMetadata, totalRecords]
  | some data =>
    rw [forLoop_open world cfg 0 n rest _ data hw, openedFiles_open world n rest data hw,
      allOpen_open world n rest data hw, loopEvents_open world cfg 0 n rest false data hw]
    obtain ⟨d, h0, h1, h2, h3, h4, h5, h6⟩ := processFile_first cfg
      (MainState.init.opened 0 n data) 0 data rfl rfl (by simp [MainState.opened, MainState.init])
    have hec : (processFile cfg (MainState.init.opened 0 n data)).entryCount < 2 ^ 64 := by
      rw [h4]; exact Nat.mod_lt _ (by positivity)
    obtain ⟨i1, i2, i3, i4, i5, i6, i7, i8⟩ :=
      forLoop_established world cfg rest 1 _ d h0 h6 hec (by rw [h1])
    have hbn : d.out.branchNames = data.columnNames := branchNames_of_columns _ _ h2
    have he : (MainState.init.opened 0 n data).entryCount = 0 := rfl
    have ht : (MainState.init.opened 0 n data).trace = [Event.xcdfOpen 0 n true] := rfl
    have hsum : ((0 + data.records.length) % 2 ^ 64 + totalRecords (openedFiles world rest))
        % 2 ^ 64 = (data.records.length + totalRecords (openedFiles world rest)) % 2 ^ 64 := by
      rw [Nat.mod_add_mod, Nat.zero_add]
    rw [he] at h4
    rw [ht] at h5
    refine ⟨?_, ?_, ?_, ?_, ?_, i6, i7, ?_⟩
    · rw [i1, h3, hbn]; simp [tableRows]
    · rw [i2, h2]; rfl
    · rw [i3, h1]; rfl
    · rw [i4, h5]; simp [List.append_assoc]
    · rw [i5, h4, totalRecords_cons, hsum]
    · rw [i8, h4, totalRecords_cons, hsum]

/-- The merge loop on an empty list of input files: no call is made before the
null tree pointer is used. -/
theorem mergeLoop_nil (world : World) (cfg : Config) (hn : cfg.infileNames = []) :
    mergeLoop world cfg = { status := 139, final := MainState.init, reported := none } := by
  unfold mergeLoop
  rw [hn]
  rfl

/-- What the merge loop leaves behind, for every list of input files. -/
theorem mergeLoop_data (world : World) (cfg : Config) :
    (mergeLoop world cfg).rows = tableRows (openedFiles world cfg.infileNames) ∧
    (mergeLoop world cfg).columns = tableColumns (openedFiles world cfg.infileNames) ∧
    (mergeLoop world cfg).metadata = tableMetadata cfg (openedFiles world cfg.infileNames) ∧
    (mergeLoop world cfg).final.trace = loopEvents world cfg 0 cfg.infileNames false := by
  cases hn : cfg.infileNames with
  | nil =>
    rw [mergeLoop_nil world cfg hn]
    simp [Outcome.rows, Outcome.columns, Outcome.metadata, MainState.init, openedFiles,
      tableRows, tableColumns, tableMetadata, loopEvents]
  | cons n rest =>
    obtain ⟨h1, h2, h3, h4, _⟩ := mergeLoop_cons world cfg n rest hn
    rw [hn] at h1 h2 h3 h4
    exact ⟨h1, h2, h3, h4⟩

/-! ## From main to the merge loop -/

/-- With an output path and at least one input path parsed, main runs the
merge loop on the parsed arguments. -/
theorem main_eq_mergeLoop (world : World) (argv : List String) (cfg : Config)
    (hp : parseArgs false argv.tail Config.initial = some cfg)
    (ho : cfg.outputFile ≠ "") (hi : cfg.infileNames ≠ []) :
    main world argv = mergeLoop world cfg := by
  simp [main, hp, ho, hi]

/-- The arguments `-i a.xcd b.xcd -o out.root` are parsed to `cfgAB`, and main
runs the merge loop on them. -/
theorem main_eq_mergeLoop_sample :
    parseArgs false ["-i", "a.xcd", "b.xcd", "-o", "out.root"] Config.initial = some cfgAB ∧
    main sampleWorld ["xcdf2root", "-i", "a.xcd", "b.xcd", "-o", "out.root"]
      = mergeLoop sampleWorld cfgAB :=
  ⟨by decide, main_eq_mergeLoop sampleWorld _ cfgAB (by decide) (by decide) (by decide)⟩

/-! ## Rows and records -/

theorem lookup_of_nodup_keys (r : Record) (hn : (r.map Prod.fst).Nodup) :
    ∀ p ∈ r, r.lookup p.1 = some p.2 := by
  induction r with
  | nil => intro p hp; cases hp
  | cons q rest ih =>
    intro p hp
    rw [List.map_cons, List.nodup_cons] at hn
    rcases List.mem_cons.mp hp with h | h
    · subst h
      simp [List.lookup]
    · have hne : p.1 ≠ q.1 := by
        intro he
        exact hn.1 (he ▸ List.mem_map_of_mem Prod.fst h)
      have hb : (p.1 == q.1) = false := by simpa using hne
      obtain ⟨k, v⟩ := q
      simp only [List.lookup, hb]
      exact ih hn.2 p h

/-- A record that lists one value for each column of the table, in column order
and under distinct names, read from a file that has a field for every column,
gives the row with exactly its values. -/
theorem rowOf_record (cols fields : List String) (r : Record)
    (hkeys : r.map Prod.fst = cols) (hnodup : cols.Nodup) (hsub : ∀ n ∈ cols, n ∈ fields) :
    rowOf cols fields r = r.map fun p => (p.1, some p.2) := by
  subst hkeys
  unfold rowOf
  rw [List.map_map]
  apply List.map_congr_left
  intro p hp
  have hmem : p.1 ∈ fields := hsub _ (List.mem_map_of_mem Prod.fst hp)
  simp [hmem, lookup_of_nodup_keys r hnodup p hp]

/-! ## Row count additivity (C1) -/

theorem openedFiles_of_allOpen (world : World) (names : List String)
    (hopen : ∀ n ∈ names, (world.xcdf n).isSome = true) :
    openedFiles world names = names.filterMap world.xcdf ∧ allOpen world names = true := by
  induction names with
  | nil => simp [openedFiles, allOpen]
  | cons n rest ih =>
    have hn := hopen n (List.mem_cons_self _ _)
    obtain ⟨data, hw⟩ := Option.isSome_iff_exists.mp hn
    obtain ⟨h1, h2⟩ := ih fun m hm => hopen m (List.mem_cons_of_mem _ hm)
    rw [openedFiles_open world n rest data hw, allOpen_open world n rest data hw, h1]
    simp [List.filterMap_cons, hw, h2]

theorem tableRows_length (files : List XCDFData) :
    (tableRows files).length = totalRecords files := by
  cases files with
  | nil => rfl
  | cons first rest =>
    simp only [tableRows, totalRecords]
    generalize first :: rest = l
    induction l with
    | nil => rfl
    | cons d ds ih => simp [List.flatMap_cons, ih]

/-- C1: for every non-empty list of input files that all open, with fewer than
2^64 records in total, the merge loop ends with exit status 0 and a finalized
table whose rows are the records of the files, in file order and then in
record order; the row count and the reported entry count both equal the sum
of the record counts. -/
theorem merge_all_open (world : World) (cfg : Config)
    (hne : cfg.infileNames ≠ [])
    (hopen : ∀ n ∈ cfg.infileNames, (world.xcdf n).isSome = true)
    (hcount : totalRecords (cfg.infileNames.filterMap world.xcdf) < 2 ^ 64) :
    (mergeLoop world cfg).status = 0 ∧
    (mergeLoop world cfg).finalized = true ∧
    (mergeLoop world cfg).rows = tableRows (cfg.infileNames.filterMap world.xcdf) ∧
    (mergeLoop world cfg).rows.length = totalRecords (cfg.infileNames.filterMap world.xcdf) ∧
    (mergeLoop world cfg).reported
      = some (totalRecords (cfg.infileNames.filterMap world.xcdf)) := by
  obtain ⟨n, rest, hn⟩ := List.exists_cons_of_ne_nil hne
  obtain ⟨ho, ha⟩ := openedFiles_of_allOpen world cfg.infileNames hopen
  obtain ⟨h1, _, _, _, _, h6, h7, h8⟩ := mergeLoop_cons world cfg n rest hn
  rw [ho] at h1 h8
  rw [ha] at h6 h7 h8
  refine ⟨by simpa using h6, h7, h1, ?_, ?_⟩
  · rw [h1, tableRows_length]
  · rw [h8, if_pos rfl, Nat.mod_eq_of_lt hcount]

/-- C1 at the scenario of the spec: file A with 3 records and file B with 5
records of the field `energy` give 8 rows, those of A before those of B, and
a reported entry count of 8. -/
theorem merge_all_open_witness :
    cfgAB.infileNames ≠ [] ∧
    (∀ n ∈ cfgAB.infileNames, (sampleWorld.xcdf n).isSome = true) ∧
    totalRecords (cfgAB.infileNames.filterMap sampleWorld.xcdf) < 2 ^ 64 ∧
    (mergeLoop sampleWorld cfgAB).status = 0 ∧
    (mergeLoop sampleWorld cfgAB).finalized = true ∧
    (mergeLoop sampleWorld cfgAB).rows = tableRows [fileA, fileB] ∧
    tableRows [fileA, fileB]
      = [[("energy", some [10])], [("energy", some [11])], [("energy", some [12])],
         [("energy", some [20])], [("energy", some [21])], [("energy", some [22])],
         [("energy", some [23])], [("energy", some [24])]] ∧
    (mergeLoop sampleWorld cfgAB).rows.length = 8 ∧
    (mergeLoop sampleWorld cfgAB).reported = some 8 :=
  have h := merge_all_open sampleWorld cfgAB (by decide) (by decide) (by decide)
  ⟨by decide, by decide, by decide, h.1, h.2.1, h.2.2.1, by decide, h.2.2.2.1, h.2.2.2.2⟩

/-! ## Column descriptions (C2, C3) -/

/-- C3: for every name, parent name and type tag, GetDescription appends
exactly one storage-format code to the name part of the description: "/l" when
the tag is XCDF_UNSIGNED_INTEGER, "/L" when it is XCDF_SIGNED_INTEGER, "/D" for
every other tag value; one of the three cases holds for every tag. -/
theorem GetDescription_format (name parentName : String) (type : Int) :
    (type = XCDF_UNSIGNED_INTEGER ∧
      GetDescription name parentName type
        = (if parentName ≠ "" then name ++ "[" ++ parentName ++ "]" else name) ++ "/l") ∨
    (type = XCDF_SIGNED_INTEGER ∧
      GetDescription name parentName type
        = (if parentName ≠ "" then name ++ "[" ++ parentName ++ "]" else name) ++ "/L") ∨
    (type ≠ XCDF_UNSIGNED_INTEGER ∧ type ≠ XCDF_SIGNED_INTEGER ∧
      GetDescription name parentName type
        = (if parentName ≠ "" then name ++ "[" ++ parentName ++ "]" else name) ++ "/D") := by
  by_cases hu : type = XCDF_UNSIGNED_INTEGER
  · left
    exact ⟨hu, by simp [GetDescription, hu]⟩
  · by_cases hs : type = XCDF_SIGNED_INTEGER
    · right; left
      refine ⟨hs, ?_⟩
      have hne : XCDF_SIGNED_INTEGER ≠ XCDF_UNSIGNED_INTEGER := by decide
      simp [GetDescription, hs, hne]
    · right; right
      exact ⟨hu, hs, by simp [GetDescription, hu, hs]⟩

/-- C2 as stated fails: for the field ("pe", "hit", floating point) the column
is created under the name "pe", and no column of the table is named
"pe[hit]"; "pe[hit]" is the name part of its leaf list "pe[hit]/D". -/
theorem column_name_counterexample :
    (mergeLoop sampleWorld cfgHits).columns = [("hit", "hit/l"), ("pe", "pe[hit]/D")] ∧
    "pe[hit]" ∉ (mergeLoop sampleWorld cfgHits).columns.map Prod.fst := by
  decide

/-- C2, amended: for every field descriptor the branch loop creates exactly one
new last branch; its name is the bare field name, and its leaf list is the
field name, followed by the parent name in square brackets when the parent
name is non-empty, followed by the storage-format code. -/
theorem createBranch_column (r : Run) (it : XCDFFieldDescriptor) :
    (createBranch r it).out.columns
      = r.out.columns ++
        [(it.name_,
          (if it.parentName_ ≠ "" then it.name_ ++ "[" ++ it.parentName_ ++ "]" else it.name_)
            ++ (if it.type_ = XCDF_UNSIGNED_INTEGER then "/l"
                else if it.type_ = XCDF_SIGNED_INTEGER then "/L" else "/D"))] ∧
    (createBranch { r with out := TTree.create }
        { name_ := "pe", parentName_ := "hit", type_ := XCDF_FLOATING_POINT }).out.columns
      = [("pe", "pe[hit]/D")] ∧
    (createBranch { r with out := TTree.create }
        { name_ := "energy", parentName_ := "", type_ := XCDF_UNSIGNED_INTEGER }).out.columns
      = [("energy", "energy/l")] := by
  refine ⟨?_, ?_, ?_⟩
  · simp [createBranch, TTree.Branch, TTree.columns, GetDescription]
  · simp [createBranch, TTree.Branch, TTree.columns, TTree.create]
    decide
  · simp [createBranch, TTree.Branch, TTree.columns, TTree.create]
    decide

/-! ## Comment relay (C4) -/

theorem tableMetadata_eq (world : World) (cfg : Config) :
    tableMetadata cfg (openedFiles world cfg.infileNames)
      = if cfg.Comment = true
          then (firstComments world cfg).filter fun c => decide (c.length ≤ 1024)
          else [] := by
  unfold firstComments
  cases hn : cfg.infileNames with
  | nil => simp [openedFiles, tableMetadata]
  | cons n rest =>
    cases hw : world.xcdf n with
    | none => simp [openedFiles, hw, tableMetadata]
    | some data => simp [openedFiles, hw, tableMetadata, relayed]

/-- C4: for every run the metadata records written to the destination are, in
order, the comment strings of the first input file whose length is at most
1024 when comment relay is enabled, and none when it is disabled; so a string
is written exactly when relay is enabled, it is a comment of the first file
and its length is at most 1024 (never one of length 1025, always one of
length 1024), whatever the later files hold. -/
theorem comments_relayed (world : World) (cfg : Config) :
    (mergeLoop world cfg).metadata
      = (if cfg.Comment = true
          then (firstComments world cfg).filter fun c => decide (c.length ≤ 1024)
          else []) ∧
    ∀ c : String, c ∈ (mergeLoop world cfg).metadata ↔
      (cfg.Comment = true ∧ c ∈ firstComments world cfg ∧ c.length ≤ 1024) := by
  have h := (mergeLoop_data world cfg).2.2.1
  rw [tableMetadata_eq] at h
  refine ⟨h, ?_⟩
  intro c
  rw [h]
  by_cases hc : cfg.Comment = true
  · simp [hc]
  · simp [hc]

/-! ## Failure to open an input file (C5) -/

theorem openedFiles_append_fail (world : World) (bad : String) (post : List String)
    (hbad : world.xcdf bad = none) (pre : List String)
    (hpre : ∀ n ∈ pre, (world.xcdf n).isSome = true) :
    openedFiles world (pre ++ bad :: post) = pre.filterMap world.xcdf ∧
    allOpen world (pre ++ bad :: post) = false := by
  induction pre with
  | nil => simp [openedFiles, allOpen, hbad]
  | cons n rest ih =>
    have hn := hpre n (List.mem_cons_self _ _)
    obtain ⟨data, hw⟩ := Option.isSome_iff_exists.mp hn
    obtain ⟨h1, h2⟩ := ih fun m hm => hpre m (List.mem_cons_of_mem _ hm)
    rw [List.cons_append, openedFiles_open world n _ data hw, allOpen_open world n _ data hw, h1]
    simp [List.filterMap_cons, hw, h2]

theorem schemaEvents_before (cfg : Config) (data : XCDFData) (k : Nat) :
    ∀ ev ∈ schemaEvents cfg data, ev.before k = true := by
  intro ev hev
  simp only [schemaEvents, List.mem_append, List.mem_cons, List.mem_map, List.mem_singleton,
    List.not_mem_nil, or_false] at hev
  rcases hev with ((h | h | h) | ⟨it, _, h⟩) | ⟨c, _, h⟩ <;> subst h <;> rfl

theorem drainEvents_before (f : Nat) (data : XCDFData) (k : Nat) (hk : f < k) :
    ∀ ev ∈ drainEvents f data, ev.before k = true := by
  intro ev hev
  simp only [drainEvents, recordEvents, List.mem_append, List.mem_cons, List.mem_map,
    List.mem_singleton, List.mem_flatMap, List.not_mem_nil, or_false] at hev
  rcases hev with ⟨_, _, ((h | h) | ⟨n, _, h⟩) | h⟩ | h | h <;> subst h <;>
    simp [Event.before, hk]

theorem loopEvents_before (world : World) (cfg : Config) (bad : String) (post : List String)
    (hbad : world.xcdf bad = none) (pre : List String) :
    ∀ (f : Nat) (e : Bool), (∀ n ∈ pre, (world.xcdf n).isSome = true) →
      ∀ ev ∈ loopEvents world cfg f (pre ++ bad :: post) e, ev.before (f + pre.length) = true := by
  induction pre with
  | nil =>
    intro f e _ ev hev
    rw [List.nil_append, loopEvents_fail world cfg f bad post e hbad] at hev
    simp only [List.mem_singleton] at hev
    subst hev
    simp [Event.before]
  | cons n rest ih =>
    intro f e hpre ev hev
    have hn := hpre n (List.mem_cons_self _ _)
    obtain ⟨data, hw⟩ := Option.isSome_iff_exists.mp hn
    rw [List.cons_append, loopEvents_open world cfg f n _ e data hw] at hev
    simp only [List.mem_append, List.mem_singleton] at hev
    have hlen : f + (n :: rest).length = f + 1 + rest.length := by
      simp only [List.length_cons]; omega
    rw [hlen]
    rcases hev with ((h | h) | h) | h
    · subst h; simp [Event.before]; omega
    · by_cases he : e = true
      · simp [he] at h
      · simp only [he, if_false] at h
        exact schemaEvents_before cfg data _ ev h
    · exact drainEvents_before f data _ (by omega) ev h
    · exact ih (f + 1) true (fun m hm => hpre m (List.mem_cons_of_mem _ hm)) ev h

/-- C5: when the input file after the files `pre` is the first that fails to
open, the run aborts with the nonzero exit status 1: the rows appended to the
table are exactly the records of the files `pre`, in order, no record of the
failing file or of a later file is read, no later file is opened, and the
table is not finalized (no final write, no close, no summary line). -/
theorem merge_open_failure (world : World) (cfg : Config) (pre : List String) (bad : String)
    (post : List String)
    (hn : cfg.infileNames = pre ++ bad :: post)
    (hpre : ∀ n ∈ pre, (world.xcdf n).isSome = true)
    (hbad : world.xcdf bad = none) :
    (mergeLoop world cfg).status = 1 ∧
    (mergeLoop world cfg).rows = tableRows (pre.filterMap world.xcdf) ∧
    (mergeLoop world cfg).finalized = false ∧
    (mergeLoop world cfg).reported = none ∧
    Event.treeWrite ∉ (mergeLoop world cfg).final.trace ∧
    Event.tfileClose ∉ (mergeLoop world cfg).final.trace ∧
    (∀ f ok, pre.length ≤ f → Event.xcdfRead f ok ∉ (mergeLoop world cfg).final.trace) ∧
    (∀ f name ok, pre.length < f →
      Event.xcdfOpen f name ok ∉ (mergeLoop world cfg).final.trace) := by
  obtain ⟨m, rest, hm⟩ : ∃ m rest, cfg.infileNames = m :: rest := by
    cases pre with
    | nil => exact ⟨bad, post, hn⟩
    | cons p ps => exact ⟨p, ps ++ bad :: post, hn⟩
  obtain ⟨ho, ha⟩ := openedFiles_append_fail world bad post hbad pre hpre
  obtain ⟨h1, _, _, h4, _, h6, h7, h8⟩ := mergeLoop_cons world cfg m rest hm
  rw [hn] at h1 h4 h6 h7 h8
  rw [ho] at h1
  rw [ha] at h6 h7 h8
  have hb := loopEvents_before world cfg bad post hbad pre 0 false hpre
  rw [← h4, Nat.zero_add] at hb
  refine ⟨by simpa using h6, h1, h7, by simpa using h8, ?_, ?_, ?_, ?_⟩
  · intro hmem
    have := hb _ hmem
    simp [Event.before] at this
  · intro hmem
    have := hb _ hmem
    simp [Event.before] at this
  · intro f ok hf hmem
    have := hb _ hmem
    simp [Event.before] at this
    omega
  · intro f name ok hf hmem
    have := hb _ hmem
    simp [Event.before] at this
    omega

/-- C5 at the scenario of the spec: input file 2 of 3 fails to open, and the
table holds exactly the three rows of file 1. -/
theorem merge_open_failure_witness :
    cfgMissing.infileNames = ["a.xcd"] ++ "missing.xcd" :: ["b.xcd"] ∧
    (∀ n ∈ ["a.xcd"], (sampleWorld.xcdf n).isSome = true) ∧
    sampleWorld.xcdf "missing.xcd" = none ∧
    (mergeLoop sampleWorld cfgMissing).status = 1 ∧
    (mergeLoop sampleWorld cfgMissing).rows = tableRows [fileA] ∧
    (mergeLoop sampleWorld cfgMissing).rows.length = 3 ∧
    (mergeLoop sampleWorld cfgMissing).finalized = false :=
  have h := merge_open_failure sampleWorld cfgMissing ["a.xcd"] "missing.xcd" ["b.xcd"]
    (by decide) (by decide) (by decide)
  ⟨by decide, by decide, by decide, h.1, h.2.1, by decide, h.2.2.1⟩

/-! ## The columns are created once (C6) -/

theorem schemaEvents_branches (cfg : Config) (data : XCDFData) :
    (schemaEvents cfg data).filterMap branchOf = columnsOf data.descriptors := by
  have h1 : (data.descriptors.map fun it =>
      Event.branch it.name_ (GetDescription it.name_ it.parentName_ it.type_)).filterMap branchOf
      = columnsOf data.descriptors := by
    rw [List.filterMap_map]
    unfold columnsOf
    induction data.descriptors with
    | nil => rfl
    | cons it ds ih => simp [List.filterMap_cons, branchOf, ih]
  have h2 : ((relayed cfg data.comments).map Event.tnamedWrite).filterMap branchOf = [] := by
    rw [List.filterMap_eq_nil_iff]
    intro ev hev
    rw [List.mem_map] at hev
    obtain ⟨c, _, rfl⟩ := hev
    rfl
  simp only [schemaEvents, List.filterMap_append, h1, h2]
  simp [List.filterMap_cons, branchOf]

theorem recordEvents_branches (f : Nat) (fields : List String) :
    (recordEvents f fields).filterMap branchOf = [] := by
  rw [List.filterMap_eq_nil_iff]
  intro ev hev
  simp only [recordEvents, List.mem_append, List.mem_cons, List.mem_map, List.mem_singleton,
    List.not_mem_nil, or_false] at hev
  rcases hev with ((h | h) | ⟨n, _, h⟩) | h <;> subst h <;> rfl

theorem drainEvents_branches (f : Nat) (data : XCDFData) :
    (drainEvents f data).filterMap branchOf = [] := by
  rw [List.filterMap_eq_nil_iff]
  intro ev hev
  simp only [drainEvents, List.mem_append, List.mem_cons, List.mem_singleton,
    List.mem_flatMap, List.not_mem_nil, or_false] at hev
  rcases hev with ⟨_, _, h⟩ | h | h
  · exact List.filterMap_eq_nil_iff.mp (recordEvents_branches f data.fieldNames) ev h
  · subst h; rfl
  · subst h; rfl

theorem loopEvents_branches_established (world : World) (cfg : Config) (names : List String) :
    ∀ f : Nat, (loopEvents world cfg f names true).filterMap branchOf = [] := by
  induction names with
  | nil => intro f; simp [loopEvents, List.filterMap_cons, branchOf]
  | cons n rest ih =>
    intro f
    cases hw : world.xcdf n with
    | none =>
      rw [loopEvents_fail world cfg f n rest true hw]
      simp [List.filterMap_cons, branchOf]
    | some data =>
      rw [loopEvents_open world cfg f n rest true data hw]
      simp [List.filterMap_append, drainEvents_branches, ih, List.filterMap_cons, branchOf]

theorem loopEvents_branches (world : World) (cfg : Config) (names : List String) (f : Nat) :
    (loopEvents world cfg f names false).filterMap branchOf
      = tableColumns (openedFiles world names) := by
  cases names with
  | nil => simp [loopEvents, openedFiles, tableColumns]
  | cons n rest =>
    cases hw : world.xcdf n with
    | none =>
      rw [loopEvents_fail world cfg f n rest false hw, openedFiles_fail world n rest hw]
      simp [List.filterMap_cons, branchOf, tableColumns]
    | some data =>
      rw [loopEvents_open world cfg f n rest false data hw, openedFiles_open world n rest data hw]
      simp [List.filterMap_append, drainEvents_branches, schemaEvents_branches,
        loopEvents_branches_established, List.filterMap_cons, branchOf, tableColumns]

theorem whileRead_keeps (records : List Record) :
    ∀ r : Run,
      (whileRead records r).outFile = r.outFile ∧
      (whileRead records r).out.columns = r.out.columns ∧
      r.out.entries <+: (whileRead records r).out.entries ∧
      (whileRead records r).out.entries.length = r.out.entries.length + records.length ∧
      (whileRead records r).trace.filterMap branchOf = r.trace.filterMap branchOf := by
  induction records with
  | nil =>
    intro r
    refine ⟨rfl, rfl, List.prefix_refl _, rfl, ?_⟩
    simp [whileRead, List.filterMap_append, List.filterMap_cons, branchOf]
  | cons record rest ih =>
    intro r
    obtain ⟨h1, h2, h3, h4, h5⟩ := ih (readBody rest record r)
    simp only [whileRead]
    refine ⟨?_, ?_, ?_, ?_, ?_⟩
    · rw [h1, readBody_outFile]
    · rw [h2]
      simp only [TTree.columns, readBody_branches]
      exact map_rebind_columns _ _ _
    · rw [readBody_entries] at h3
      exact List.IsPrefix.trans (List.prefix_append _ _) h3
    · rw [h4, readBody_entries]
      simp only [List.length_append, List.length_cons, List.length_nil]
      omega
    · rw [h5, readBody_trace, List.filterMap_append, recordEvents_branches, List.append_nil]

/-- C6: for every run the destination columns are created once, from the first
input file that is opened: one column per field descriptor of that file, in
declaration order, and the `Branch` calls of the whole run are these and no
others; processing any later file, whatever it holds, keeps the columns and
the output file as they are, makes no `Branch` call, and appends one row per
record to the rows already there. -/
theorem columns_created_once (world : World) (cfg : Config) :
    (mergeLoop world cfg).columns = tableColumns (openedFiles world cfg.infileNames) ∧
    (mergeLoop world cfg).final.trace.filterMap branchOf
      = tableColumns (openedFiles world cfg.infileNames) ∧
    ∀ (s : MainState) (d : Dest) (f : Nat) (theFileName : String) (data : XCDFData),
      s.dest = some d →
      ∃ d2 : Dest, (processFile cfg (s.opened f theFileName data)).dest = some d2 ∧
        d2.out.columns = d.out.columns ∧
        d2.outFile = d.outFile ∧
        d.out.entries <+: d2.out.entries ∧
        d2.out.entries.length = d.out.entries.length + data.records.length ∧
        (processFile cfg (s.opened f theFileName data)).trace.filterMap branchOf
          = s.trace.filterMap branchOf := by
  obtain ⟨_, h2, _, h4⟩ := mergeLoop_data world cfg
  refine ⟨h2, ?_, ?_⟩
  · rw [h4, loopEvents_branches]
  · intro s d f theFileName data hd
    have hp : processFile cfg (s.opened f theFileName data)
        = drain (Run.mk d.outFile d.out s.entryCount (XCDFFile.Open f data)
            (s.trace ++ [Event.xcdfOpen f theFileName true])) := by
      simp [processFile, enter, MainState.opened, hd]
    obtain ⟨k1, k2, k3, k4, k5⟩ := whileRead_keeps data.records
      (Run.mk d.outFile d.out s.entryCount (XCDFFile.Open f data)
        (s.trace ++ [Event.xcdfOpen f theFileName true]))
    rw [hp]
    refine ⟨_, rfl, k2, k1, k3, k4, ?_⟩
    simp only [drain, Run.toMainState, List.filterMap_append]
    have k5b := k5
    simp only [List.filterMap_append] at k5b
    simp only [XCDFFile.Open] at k5b ⊢
    rw [k5b]
    simp [List.filterMap_cons, branchOf]

/-- C6 at a run over the files A and B: the single column `energy` comes from
file A, and processing file B after file A keeps it and appends five rows to
the three rows of file A. -/
theorem columns_created_once_witness :
    (mergeLoop sampleWorld cfgAB).columns = [("energy", "energy/l")] ∧
    (mergeLoop sampleWorld cfgAB).final.trace.filterMap branchOf = [("energy", "energy/l")] ∧
    (processFile cfgAB (MainState.init.opened 0 "a.xcd" fileA)).dest.isSome = true ∧
    ∃ d d2 : Dest,
      (processFile cfgAB (MainState.init.opened 0 "a.xcd" fileA)).dest = some d ∧
      (processFile cfgAB ((processFile cfgAB (MainState.init.opened 0 "a.xcd" fileA)).opened
        1 "b.xcd" fileB)).dest = some d2 ∧
      d2.out.columns = d.out.columns ∧ d.out.entries.length = 3 ∧ d2.out.entries.length = 8 := by
  have h := columns_created_once sampleWorld cfgAB
  refine ⟨h.1, h.2.1, by decide, ?_⟩
  obtain ⟨d, hd⟩ := Option.isSome_iff_exists.mp
    (show (processFile cfgAB (MainState.init.opened 0 "a.xcd" fileA)).dest.isSome = true by decide)
  obtain ⟨d2, k1, k2, _, _, k5, _⟩ := h.2.2 _ d 1 "b.xcd" fileB hd
  have hlen : d.out.entries.length = 3 := by
    have h3 : ((processFile cfgAB (MainState.init.opened 0 "a.xcd" fileA)).dest.map
        fun x => x.out.entries.length) = some 3 := by decide
    rw [hd] at h3
    simpa using h3
  refine ⟨d, d2, hd, k1, k2, hlen, ?_⟩
  rw [k5, hlen]
  rfl

/-! ## Bindings are fresh at every append (C8) -/

/-- The assumption on the schemas is used: in a run over `hits.xcd` and then
`a.xcd`, whose field `energy` has no branch, the branches `hit` and `pe` still
hold the addresses of file 0 when the three rows of file 1 are appended. -/
theorem fillStates_mixed_schema :
    (fillStates sampleWorld cfgMixed).map
        (fun r => (r.xcdfile.handle, r.out.branches.map fun b => b.address))
      = [(0, [some (Addr.mk 0 "hit"), some (Addr.mk 0 "pe")]),
         (0, [some (Addr.mk 0 "hit"), some (Addr.mk 0 "pe")]),
         (1, [some (Addr.mk 0 "hit"), some (Addr.mk 0 "pe")]),
         (1, [some (Addr.mk 0 "hit"), some (Addr.mk 0 "pe")]),
         (1, [some (Addr.mk 0 "hit"), some (Addr.mk 0 "pe")])] := by
  decide

/-- The check of the bindings rejects a row appended under a binding made for a
file that has been closed since, and a row appended before any binder pass. -/
theorem freshBindings_rejects_stale :
    freshBindings [Event.xcdfOpen 0 "a.xcd" true, Event.xcdfRead 0 true,
      Event.applyFieldVisitor 0, Event.fill, Event.xcdfRead 0 false, Event.xcdfClose 0,
      Event.xcdfOpen 1 "b.xcd" true, Event.xcdfRead 1 true, Event.fill] = false ∧
    freshBindings [Event.xcdfOpen 0 "a.xcd" true, Event.xcdfRead 0 true, Event.fill] = false := by
  decide

/-! ## One pass of the binder per record (C9) -/

theorem count_schemaEvents (cfg : Config) (data : XCDFData) (g : Nat) :
    (schemaEvents cfg data).count (Event.applyFieldVisitor g) = 0 := by
  rw [List.count_eq_zero]
  intro hev
  simp only [schemaEvents, List.mem_append, List.mem_cons, List.mem_map, List.mem_singleton,
    List.not_mem_nil, or_false] at hev
  rcases hev with ((h | h | h) | ⟨it, _, h⟩) | ⟨c, _, h⟩ <;> cases h

theorem count_recordEvents (f g : Nat) (fields : List String) :
    (recordEvents f fields).count (Event.applyFieldVisitor g) = if g = f then 1 else 0 := by
  have hb : (fields.map fun n => Event.setBranchAddress n { file := f, field := n }).count
      (Event.applyFieldVisitor g) = 0 := by
    rw [List.count_eq_zero]
    intro hev
    rw [List.mem_map] at hev
    obtain ⟨n, _, h⟩ := hev
    cases h
  unfold recordEvents
  rw [List.count_append, List.count_append, hb]
  by_cases hg : g = f
  · subst hg
    simp [List.count_cons]
  · have hg2 : ¬ f = g := fun h => hg h.symm
    simp [List.count_cons, hg, hg2]

theorem count_drainEvents (f g : Nat) (data : XCDFData) :
    (drainEvents f data).count (Event.applyFieldVisitor g)
      = if g = f then data.records.length else 0 := by
  have hr : ∀ records : List Record,
      (records.flatMap fun _ => recordEvents f data.fieldNames).count (Event.applyFieldVisitor g)
        = if g = f then records.length else 0 := by
    intro records
    induction records with
    | nil => simp
    | cons r rest ih =>
      rw [List.flatMap_cons, List.count_append, ih, count_recordEvents]
      by_cases hg : g = f
      · simp [hg]; omega
      · simp [hg]
  unfold drainEvents
  rw [List.count_append, hr]
  simp [List.count_cons]

theorem count_loopEvents_lt (world : World) (cfg : Config) (names : List String) :
    ∀ (f : Nat) (e : Bool) (g : Nat), g < f →
      (loopEvents world cfg f names e).count (Event.applyFieldVisitor g) = 0 := by
  induction names with
  | nil =>
    intro f e g _
    cases e <;> simp [loopEvents, List.count_cons]
  | cons n rest ih =>
    intro f e g hg
    cases hw : world.xcdf n with
    | none =>
      rw [loopEvents_fail world cfg f n rest e hw]
      simp [List.count_cons]
    | some data =>
      rw [loopEvents_open world cfg f n rest e data hw]
      have hne : ¬ g = f := by omega
      have hs : (if e = true then [] else schemaEvents cfg data).count
          (Event.applyFieldVisitor g) = 0 := by
        cases e
        · simpa using count_schemaEvents cfg data g
        · simp
      rw [List.count_append, List.count_append, List.count_append, hs, count_drainEvents,
        ih (f + 1) true g (by omega)]
      simp [List.count_cons, hne]

theorem count_loopEvents (world : World) (cfg : Config) (names : List String) :
    ∀ (f : Nat) (e : Bool) (i : Nat) (data : XCDFData),
      (openedFiles world names)[i]? = some data →
      (loopEvents world cfg f names e).count (Event.applyFieldVisitor (f + i))
        = data.records.length := by
  induction names with
  | nil =>
    intro f e i data h
    simp [openedFiles] at h
  | cons n rest ih =>
    intro f e i data h
    cases hw : world.xcdf n with
    | none =>
      rw [openedFiles_fail world n rest hw] at h
      simp at h
    | some first =>
      rw [openedFiles_open world n rest first hw] at h
      rw [loopEvents_open world cfg f n rest e first hw]
      have hs : (if e = true then [] else schemaEvents cfg first).count
          (Event.applyFieldVisitor (f + i)) = 0 := by
        cases e
        · simpa using count_schemaEvents cfg first (f + i)
        · simp
      rw [List.count_append, List.count_append, List.count_append, hs, count_drainEvents]
      cases i with
      | zero =>
        simp only [List.getElem?_cons_zero, Option.some.injEq] at h
        subst h
        rw [count_loopEvents_lt world cfg rest (f + 1) true (f + 0) (by omega)]
        simp [List.count_cons]
      | succ j =>
        simp only [List.getElem?_cons_succ] at h
        have hj := ih (f + 1) true j data h
        have hidx : f + 1 + j = f + (j + 1) := by omega
        rw [hidx] at hj
        rw [hj]
        have hne : ¬ f + (j + 1) = f := by omega
        simp [List.count_cons, hne]

/-- C9 as stated fails: the file `hits.xcd` has two records and the binder
passes over it twice, each pass after a read and before the row append, the
first pass after the first record is read; a file with three records gets
three passes. -/
theorem bind_once_counterexample :
    bindPasses 0 (mergeLoop sampleWorld cfgHits).final.trace = 2 ∧
    bindPasses 0 (mergeLoop sampleWorld cfgHits).final.trace ≠ 1 ∧
    bindPasses 0 (mergeLoop sampleWorld cfgAB).final.trace = 3 ∧
    (mergeLoop sampleWorld cfgHits).final.trace
      = [Event.xcdfOpen 0 "hits.xcd" true,
         Event.tfileOpen "out.root", Event.newTree, Event.setAutoSave,
         Event.branch "hit" "hit/l", Event.branch "pe" "pe[hit]/D",
         Event.xcdfRead 0 true, Event.applyFieldVisitor 0,
         Event.setBranchAddress "hit" { file := 0, field := "hit" },
         Event.setBranchAddress "pe" { file := 0, field := "pe" },
         Event.fill,
         Event.xcdfRead 0 true, Event.applyFieldVisitor 0,
         Event.setBranchAddress "hit" { file := 0, field := "hit" },
         Event.setBranchAddress "pe" { file := 0, field := "pe" },
         Event.fill,
         Event.xcdfRead 0 false, Event.xcdfClose 0,
         Event.treeWrite, Event.tfileClose] := by
  decide

/-- C9, amended: for every run the calls made are those of `loopEvents`: for
each input file that opens, the open, for the first file the creation of the
table, then for each record a read that returns true, one pass of the binder
with one bind per field, and the row append, then the read that returns false
and the close; so the binder passes over the file with index `i` once per
record, after the read of the record and before its append, and the number of
passes is the record count of the file. -/
theorem bind_per_record (world : World) (cfg : Config) :
    (mergeLoop world cfg).final.trace = loopEvents world cfg 0 cfg.infileNames false ∧
    ∀ (i : Nat) (data : XCDFData), (openedFiles world cfg.infileNames)[i]? = some data →
      bindPasses i (mergeLoop world cfg).final.trace = data.records.length := by
  have h := (mergeLoop_data world cfg).2.2.2
  refine ⟨h, ?_⟩
  intro i data hi
  have hc := count_loopEvents world cfg cfg.infileNames 0 false i data hi
  rw [Nat.zero_add] at hc
  rw [bindPasses, h, hc]

/-- C9, amended, at a run over the files A and B: three passes over file A and
five over file B. -/
theorem bind_per_record_witness :
    (openedFiles sampleWorld cfgAB.infileNames)[1]? = some fileB ∧
    bindPasses 1 (mergeLoop sampleWorld cfgAB).final.trace = 5 ∧
    bindPasses 0 (mergeLoop sampleWorld cfgAB).final.trace = 3 :=
  ⟨by decide,
   (bind_per_record sampleWorld cfgAB).2 1 fileB (by decide),
   (bind_per_record sampleWorld cfgAB).2 0 fileA (by decide)⟩


/-! ## The binder addresses the branches by their names (C10) -/

theorem mem_drainEvents_bind (f : Nat) (data : XCDFData) (n : String) (a : Addr)
    (h : Event.setBranchAddress n a ∈ drainEvents f data) :
    n ∈ data.fieldNames ∧ a.field = n := by
  simp only [drainEvents, recordEvents, List.mem_append, List.mem_cons, List.mem_map,
    List.mem_singleton, List.mem_flatMap, List.not_mem_nil, or_false] at h
  rcases h with ⟨_, _, ((h | h) | ⟨m, hm, h⟩) | h⟩ | h | h
  · cases h
  · cases h
  · injection h with h1 h2
    subst h1
    subst h2
    exact ⟨hm, rfl⟩
  · cases h
  · cases h
  · cases h

theorem mem_schemaEvents_bind (cfg : Config) (data : XCDFData) (n : String) (a : Addr) :
    Event.setBranchAddress n a ∉ schemaEvents cfg data := by
  intro h
  simp only [schemaEvents, List.mem_append, List.mem_cons, List.mem_map, List.mem_singleton,
    List.not_mem_nil, or_false] at h
  rcases h with ((h | h | h) | ⟨it, _, h⟩) | ⟨c, _, h⟩ <;> cases h

theorem mem_loopEvents_bind (world : World) (cfg : Config) (n : String) (a : Addr)
    (names : List String) :
    ∀ (f : Nat) (e : Bool), Event.setBranchAddress n a ∈ loopEvents world cfg f names e →
      ∃ data ∈ openedFiles world names, n ∈ data.fieldNames ∧ a.field = n := by
  induction names with
  | nil =>
    intro f e h
    cases e <;> simp [loopEvents] at h
  | cons m rest ih =>
    intro f e h
    cases hw : world.xcdf m with
    | none =>
      rw [loopEvents_fail world cfg f m rest e hw] at h
      simp at h
    | some data =>
      rw [loopEvents_open world cfg f m rest e data hw] at h
      rw [openedFiles_open world m rest data hw]
      simp only [List.mem_append, List.mem_singleton] at h
      rcases h with ((h | h) | h) | h
      · cases h
      · cases e
        · exact absurd (by simpa using h) (mem_schemaEvents_bind cfg data n a)
        · simp at h
      · exact ⟨data, List.mem_cons_self _ _, mem_drainEvents_bind f data n a h⟩
      · obtain ⟨d, hd, hn⟩ := ih (f + 1) true h
        exact ⟨d, List.mem_cons_of_mem _ hd, hn⟩

theorem mem_loopEvents_branch (world : World) (cfg : Config) (names : List String) (f : Nat)
    (first : XCDFData) (tail : List XCDFData) (hf : openedFiles world names = first :: tail)
    (it : XCDFFieldDescriptor) (hit : it ∈ first.descriptors) :
    Event.branch it.name_ (GetDescription it.name_ it.parentName_ it.type_)
      ∈ loopEvents world cfg f names false := by
  cases names with
  | nil => simp [openedFiles] at hf
  | cons m rest =>
    cases hw : world.xcdf m with
    | none =>
      rw [openedFiles_fail world m rest hw] at hf
      cases hf
    | some data =>
      rw [openedFiles_open world m rest data hw] at hf
      injection hf with h1 _
      subst h1
      rw [loopEvents_open world cfg f m rest false data hw]
      simp only [List.mem_append, schemaEvents, List.mem_map, Bool.false_eq_true, if_false]
      exact Or.inl (Or.inl (Or.inr (Or.inl (Or.inr ⟨it, hit, rfl⟩))))

/-- C10: when each field of every opened input file carries the name of one of
the file's descriptors (its `GetName()` is the descriptor's `name_`) and all
opened input files have the same field descriptors, every bind the binder
issues addresses a column by the bare name of a field, and a branch was
created under exactly this name, with the description of the field as leaf
list, when the table was set up; the address bound is that of the field of
this name. -/
theorem binds_address_created_branches (world : World) (cfg : Config)
    (hnames : ∀ data ∈ openedFiles world cfg.infileNames,
      ∀ n ∈ data.fieldNames, ∃ it ∈ data.descriptors, it.name_ = n)
    (hschema : ∀ d1 ∈ openedFiles world cfg.infileNames,
      ∀ d2 ∈ openedFiles world cfg.infileNames, d1.descriptors = d2.descriptors) :
    ∀ (n : String) (a : Addr),
      Event.setBranchAddress n a ∈ (mergeLoop world cfg).final.trace →
      a.field = n ∧
      ∃ it : XCDFFieldDescriptor, n = it.name_ ∧
        Event.branch it.name_ (GetDescription it.name_ it.parentName_ it.type_)
          ∈ (mergeLoop world cfg).final.trace ∧
        (it.name_, GetDescription it.name_ it.parentName_ it.type_)
          ∈ (mergeLoop world cfg).columns := by
  intro n a hmem
  obtain ⟨_, h2, _, h4⟩ := mergeLoop_data world cfg
  rw [h4] at hmem ⊢
  rw [h2]
  obtain ⟨data, hdata, hn, ha⟩ := mem_loopEvents_bind world cfg n a cfg.infileNames 0 false hmem
  refine ⟨ha, ?_⟩
  obtain ⟨it, hit, rfl⟩ := hnames data hdata n hn
  cases hfiles : openedFiles world cfg.infileNames with
  | nil => rw [hfiles] at hdata; cases hdata
  | cons first tail =>
    have hfirst : first ∈ openedFiles world cfg.infileNames := by
      rw [hfiles]; exact List.mem_cons_self _ _
    have hsame : data.descriptors = first.descriptors := hschema data hdata first hfirst
    rw [hsame] at hit
    refine ⟨it, rfl, mem_loopEvents_branch world cfg cfg.infileNames 0 first tail hfiles it hit, ?_⟩
    simp only [tableColumns, columnsOf, List.mem_map]
    exact ⟨it, hit, rfl⟩

/-- C10 at a run over the file `hits.xcd`: the bind for the array field `pe`
under `hit` addresses the branch `pe`, created with the leaf list
`pe[hit]/D`. -/
theorem binds_address_created_branches_witness :
    (∀ data ∈ openedFiles sampleWorld cfgHits.infileNames,
      ∀ n ∈ data.fieldNames, ∃ it ∈ data.descriptors, it.name_ = n) ∧
    (∀ d1 ∈ openedFiles sampleWorld cfgHits.infileNames,
      ∀ d2 ∈ openedFiles sampleWorld cfgHits.infileNames, d1.descriptors = d2.descriptors) ∧
    Event.setBranchAddress "pe" { file := 0, field := "pe" }
      ∈ (mergeLoop sampleWorld cfgHits).final.trace ∧
    ∃ it : XCDFFieldDescriptor, "pe" = it.name_ ∧
      Event.branch it.name_ (GetDescription it.name_ it.parentName_ it.type_)
        ∈ (mergeLoop sampleWorld cfgHits).final.trace ∧
      (it.name_, GetDescription it.name_ it.parentName_ it.type_)
        ∈ (mergeLoop sampleWorld cfgHits).columns :=
  ⟨by decide, by decide, by decide,
   (binds_address_created_branches sampleWorld cfgHits (by decide) (by decide) "pe"
      { file := 0, field := "pe" } (by decide)).2⟩

/-! ## Configuration errors (C7) -/

theorem parseArgs_outputFile (k : Nat) :
    ∀ (args : List String) (collecting : Bool) (c c2 : Config), args.length ≤ k →
      parseArgs collecting args c = some c2 → givesOutput args = false →
      c2.outputFile = c.outputFile := by
  induction k with
  | zero =>
    intro args collecting c c2 hk h _
    have : args = [] := List.length_eq_zero.mp (Nat.le_zero.mp hk)
    subst this
    simp only [parseArgs, Option.some.injEq] at h
    rw [← h]
  | succ k ih =>
    intro args collecting c c2 hk h hg
    cases args with
    | nil =>
      simp only [parseArgs, Option.some.injEq] at h
      rw [← h]
    | cons a rest =>
      have hlen : rest.length ≤ k := by simp only [List.length_cons] at hk; omega
      simp only [givesOutput, Bool.or_eq_false_iff, Bool.and_eq_false_imp] at hg
      obtain ⟨hg1, hg2⟩ := hg
      unfold parseArgs at h
      split_ifs at h with h1 h2 h3 h4 h5
      · have hr := ih rest true _ c2 hlen h hg2
        exact hr
      · exact ih rest true c c2 hlen h hg2
      · cases rest with
        | nil =>
          simp only [Option.some.injEq] at h
          rw [← h]
        | cons v rest2 =>
          have := hg1 (by simpa using h4)
          simp at this
      · have hr := ih rest false _ c2 hlen h hg2
        exact hr
      · exact ih rest false c c2 hlen h hg2

theorem givesInput_tail (a : String) (rest : List String) (h : givesInput (a :: rest) = false) :
    givesInput rest = false := by
  simp only [givesInput, Bool.or_eq_false_iff] at h
  exact h.2

theorem parseArgs_infileNames (k : Nat) :
    ∀ (args : List String) (collecting : Bool) (c c2 : Config), args.length ≤ k →
      parseArgs collecting args c = some c2 → givesInput args = false →
      (collecting = true → ∀ a rest, args = a :: rest → notDash a = false) →
      c2.infileNames = c.infileNames := by
  induction k with
  | zero =>
    intro args collecting c c2 hk h _ _
    have : args = [] := List.length_eq_zero.mp (Nat.le_zero.mp hk)
    subst this
    simp only [parseArgs, Option.some.injEq] at h
    rw [← h]
  | succ k ih =>
    intro args collecting c c2 hk h hg hcol
    cases args with
    | nil =>
      simp only [parseArgs, Option.some.injEq] at h
      rw [← h]
    | cons a rest =>
      have hlen : rest.length ≤ k := by simp only [List.length_cons] at hk; omega
      have hg2 := givesInput_tail a rest hg
      have hfalse : ∀ b tail, (false = true → ∀ x xs, (b :: tail : List String) = x :: xs →
          notDash x = false) := fun _ _ hc => absurd hc (by decide)
      unfold parseArgs at h
      split_ifs at h with h1 h2 h3 h4 h5
      · have := hcol h1.1 a rest rfl
        rw [h1.2] at this
        cases this
      · refine ih rest true c c2 hlen h hg2 ?_
        intro _ b tail hb
        subst hb
        simp only [givesInput, Bool.or_eq_false_iff, Bool.and_eq_false_imp] at hg
        exact hg.1 (by simpa using h3)
      · cases rest with
        | nil =>
          simp only [Option.some.injEq] at h
          rw [← h]
        | cons v rest2 =>
          simp only at h
          have hlen2 : rest2.length ≤ k := by simp only [List.length_cons] at hlen; omega
          have hr := ih rest2 false _ c2 hlen2 h (givesInput_tail v rest2 hg2)
            (fun hc => absurd hc (by decide))
          exact hr
      · have hr := ih rest false _ c2 hlen h hg2 (fun hc => absurd hc (by decide))
        exact hr
      · exact ih rest false c c2 hlen h hg2 (fun hc => absurd hc (by decide))

theorem parseArgs_isSome (k : Nat) :
    ∀ (args : List String) (collecting : Bool) (c : Config), args.length ≤ k →
      "-h" ∉ args → "--help" ∉ args → (parseArgs collecting args c).isSome = true := by
  induction k with
  | zero =>
    intro args collecting c hk _ _
    have : args = [] := List.length_eq_zero.mp (Nat.le_zero.mp hk)
    subst this
    rfl
  | succ k ih =>
    intro args collecting c hk hh hl
    cases args with
    | nil => rfl
    | cons a rest =>
      have hlen : rest.length ≤ k := by simp only [List.length_cons] at hk; omega
      have hh2 : "-h" ∉ rest := fun hm => hh (List.mem_cons_of_mem _ hm)
      have hl2 : "--help" ∉ rest := fun hm => hl (List.mem_cons_of_mem _ hm)
      have ha1 : a ≠ "-h" := fun he => hh (by rw [he]; exact List.mem_cons_self _ _)
      have ha2 : a ≠ "--help" := fun he => hl (by rw [he]; exact List.mem_cons_self _ _)
      unfold parseArgs
      split_ifs with h1 h2 h3 h4 h5
      · exact ih rest true _ hlen hh2 hl2
      · rcases h2 with h2 | h2
        · exact absurd h2 ha1
        · exact absurd h2 ha2
      · exact ih rest true c hlen hh2 hl2
      · cases rest with
        | nil => rfl
        | cons v rest2 =>
          have hlen2 : rest2.length ≤ k := by simp only [List.length_cons] at hlen; omega
          exact ih rest2 false _ hlen2 (fun hm => hh2 (List.mem_cons_of_mem _ hm))
            (fun hm => hl2 (List.mem_cons_of_mem _ hm))
      · exact ih rest false _ hlen hh2 hl2
      · exact ih rest false c hlen hh2 hl2

/-- C7 as stated fails: the argument list `-h` gives no output path and no
input path, and the program exits with status 0. -/
theorem config_error_counterexample :
    givesOutput ["-h"] = false ∧ givesInput ["-h"] = false ∧
    (main sampleWorld ["xcdf2root", "-h"]).status = 0 ∧
    (main sampleWorld ["xcdf2root", "--help"]).status = 0 := by
  decide

/-- C7, amended: for every argument list that gives no output path or gives no
input path, the program exits before any input file is opened and before the
output file is created (no call is made on a collaborator); the exit status is
0 when the argument loop reaches `-h` or `--help`, and the nonzero status 1
otherwise, in particular whenever neither `-h` nor `--help` is among the
arguments. -/
theorem main_config_error (world : World) (argv : List String)
    (h : givesOutput argv.tail = false ∨ givesInput argv.tail = false) :
    (main world argv).final = MainState.init ∧
    (main world argv).final.trace = [] ∧
    (main world argv).final.dest = none ∧
    (main world argv).status = (if helpReached argv = true then 0 else 1) ∧
    ("-h" ∉ argv.tail ∧ "--help" ∉ argv.tail → (main world argv).status = 1) := by
  have key : (main world argv).final = MainState.init ∧
      (main world argv).status = (if helpReached argv = true then 0 else 1) := by
    unfold main helpReached
    cases hp : parseArgs false argv.tail Config.initial with
    | none => simp
    | some cfg =>
      have ho := parseArgs_outputFile argv.tail.length argv.tail false Config.initial cfg
        (Nat.le_refl _) hp
      have hi := parseArgs_infileNames argv.tail.length argv.tail false Config.initial cfg
        (Nat.le_refl _) hp
      by_cases h1 : cfg.outputFile = ""
      · simp [h1]
      · by_cases h2 : cfg.infileNames = []
        · simp [h1, h2]
        · exfalso
          rcases h with h | h
          · exact h1 (ho h)
          · exact h2 (hi h (fun hc => absurd hc (by decide)))
  refine ⟨key.1, by rw [key.1]; rfl, by rw [key.1]; rfl, key.2, ?_⟩
  rintro ⟨hh, hl⟩
  have hs := parseArgs_isSome argv.tail.length argv.tail false Config.initial (Nat.le_refl _) hh hl
  rw [key.2]
  have : helpReached argv = false := by
    unfold helpReached
    cases hp : parseArgs false argv.tail Config.initial with
    | none => rw [hp] at hs; cases hs
    | some cfg => rfl
  simp [this]

/-- C7, amended, at the argument lists `-i a.xcd` (no output path), `-o
out.root` (no input path) and `-o -i a.xcd` (the `-i` is taken as the output
path): exit status 1 and no call on a collaborator. -/
theorem main_config_error_witness :
    givesOutput (["xcdf2root", "-i", "a.xcd"] : List String).tail = false ∧
    (main sampleWorld ["xcdf2root", "-i", "a.xcd"]).status = 1 ∧
    (main sampleWorld ["xcdf2root", "-i", "a.xcd"]).final.trace = [] ∧
    (main sampleWorld ["xcdf2root", "-o", "out.root"]).status = 1 ∧
    (main sampleWorld ["xcdf2root", "-o", "-i", "a.xcd"]).status = 1 :=
  have h := main_config_error sampleWorld ["xcdf2root", "-i", "a.xcd"] (Or.inl (by decide))
  ⟨by decide, h.2.2.2.2 (by decide), h.2.1, by decide, by decide⟩

end XCDF2Root
